import Mathlib

/-!
# gvox: the voxel volume store and the viewer's editing and rendering loops

A shallow embedding of `src/Voxmap.cpp` (`Voxmap::clear`, `Voxmap::importDir`,
`Voxmap::loadFromJson`, the compositing recurrence of `Voxmap::scanLineTrilDepth`)
and of `src/Viewer.cpp` (the ball edit of `Viewer::mouseDoubleClickEvent`, the row
partition of `Viewer::rebuild` / `Viewer::rebuildID`, the overlay of
`Viewer::rebuildID`), followed by theorems about them.

Conventions.
* A C++ `int` is an `Int`; every `int` multiplication of the source is reduced
  into `[-2^31, 2^31)` by `wrap32`.
* An operation that leaves defined behaviour (an allocation of negative size, a
  copy that does not fit the buffer) returns `Except.error`.
* The Qt library is not part of the repository: files are an association list
  from path to bytes, the JSON text format is a pair of functions taken as
  parameters, the wall clock is a parameter.
-/

namespace Gvox

/-! ## Machine integers and bytes -/

/-- A `uint8_t`. -/
abbrev Byte := Fin 256

/-- The value a 32-bit `int` holds after an arithmetic result `n`:
`n` reduced modulo `2^32` into `[-2^31, 2^31)`. -/
def wrap32 (n : Int) : Int := (n + 2147483648) % 4294967296 - 2147483648

/-- The C++ expression `a*b` on two `int`s. -/
def mul32 (a b : Int) : Int := wrap32 (a * b)

/-- How an operation can leave defined behaviour. -/
inductive Fault where
  /-- `new uint8_t[n]` with a negative `n`. -/
  | badAlloc
  /-- A copy or read through a pointer outside the allocated buffer. -/
  | outOfBounds
  deriving DecidableEq, Repr

/-! ## Qt values read and written by the volume store -/

/-- A `QJsonValue`, to the depth the code inspects it. -/
inductive QJsonValue where
  | null
  | bool (b : Bool)
  | double (d : ℚ)
  | string (s : String)
  /-- An array or a nested object; the code never looks inside one here. -/
  | compound
  deriving DecidableEq

/-- A `QJsonObject`: the metadata record. -/
abbrev QJsonObject := List (String × QJsonValue)

/-- The result of `QJsonValue::toInt()`: the number when it is integral and in the
range of `int`, else the default `0`. -/
def QJsonValue.toInt : QJsonValue → Int
  | .double d => if d.den = 1 ∧ -2147483648 ≤ d.num ∧ d.num < 2147483648 then d.num else 0
  | _ => 0

/-- The result of `QJsonValue::toString()`: the string, else the empty string. -/
def QJsonValue.toString : QJsonValue → String
  | .string s => s
  | _ => ""

/-- The object after `o[key] = val`: the entry is replaced, or added. -/
def QJsonObject.set (o : QJsonObject) (key : String) (val : QJsonValue) : QJsonObject :=
  if o.lookup key = none then o ++ [(key, val)]
  else o.map fun e => if e.1 = key then (key, val) else e

/-- The object after the non-const `o[key]` is evaluated: Qt adds a `null` entry when
the key is absent. -/
def QJsonObject.touch (o : QJsonObject) (key : String) : QJsonObject :=
  if o.lookup key = none then o ++ [(key, QJsonValue.null)] else o

/-- The value `o[key]` refers to. -/
def QJsonObject.value (o : QJsonObject) (key : String) : QJsonValue :=
  (o.lookup key).getD QJsonValue.null

/-- What `loadFromJson` observes of a parsed `QJsonDocument`: `isObject()`, and
`object()["voxmap"].toObject()`, which is empty when the document is not an object,
has no such entry, or the entry is not an object. -/
structure QJsonDocument where
  isObject : Bool
  voxmap : QJsonObject
  deriving DecidableEq

/-- The JSON text format of `QJsonDocument` (Qt library code): `toJson record` is the
text of the document `{"voxmap": record}`, `fromJson` parses a text. -/
structure JsonFormat where
  toJson : QJsonObject → List Byte
  fromJson : List Byte → QJsonDocument

/-- A `QImage` as `importDir` reads it: its width, its height and the bytes found
at `bits()`. An image that could not be read has width 0 and height 0. -/
structure QImage where
  width : Nat
  height : Nat
  bits : Nat → Byte

/-- The files `QFile` can open for reading, by path. -/
abbrev FileSystem := List (String × List Byte)

/-! ## Raw buffers -/

/-- The expression `new uint8_t[n]` for an `int` `n`. A negative `n` throws; the fresh
array holds indeterminate bytes, here `junk`. -/
def newArray (junk : Nat → Byte) (n : Int) : Except Fault (List Byte) :=
  if n < 0 then .error .badAlloc else .ok ((List.range n.toNat).map junk)

/-- The buffer after the bytes `src` are stored at `buf + off`. -/
def copyInto (buf : List Byte) (off : Int) (src : List Byte) : Except Fault (List Byte) :=
  if src = [] then .ok buf
  else if off < 0 ∨ (buf.length : Int) < off + src.length then .error .outOfBounds
  else .ok (buf.take off.toNat ++ src ++ buf.drop (off.toNat + src.length))

/-- The call `memcpy(buf + off, src, n)` for an `int` `n` (converted to `size_t`, so a
negative `n` copies past every buffer). -/
def memcpy (buf : List Byte) (off : Int) (src : Nat → Byte) (n : Int) :
    Except Fault (List Byte) :=
  if n < 0 then .error .outOfBounds
  else copyInto buf off ((List.range n.toNat).map src)

/-- The bytes `QIODevice::write(buf + off, n)` writes: none for `n ≤ 0` (a negative
length is refused with -1), else `n` bytes of the buffer. -/
def slice (buf : List Byte) (off : Int) (n : Int) : Except Fault (List Byte) :=
  if n ≤ 0 then .ok []
  else if off < 0 ∨ (buf.length : Int) < off + n then .error .outOfBounds
  else .ok ((buf.drop off.toNat).take n.toNat)

/-! ## The volume store (`Voxmap.cpp`) -/

/-- The fields of a `Voxmap`. `data = none` is the null pointer. -/
structure Voxmap where
  X : Int
  Y : Int
  Z : Int
  ystride : Int
  zstride : Int
  data : Option (List Byte)
  nullval : Byte
  meta : QJsonObject

/-- The constructor `Voxmap::Voxmap()`. -/
def Voxmap.new : Voxmap :=
  { X := 0, Y := 0, Z := 0, ystride := 0, zstride := 0, data := none, nullval := 0, meta := [] }

/-- The method `Voxmap::clear()`. -/
def Voxmap.clear (v : Voxmap) : Voxmap :=
  { v with X := 0, Y := 0, Z := 0, data := none, meta := [] }

/-- The empty volume: `X = Y = Z = 0`, a null buffer, an empty metadata record. -/
def Voxmap.isEmpty (v : Voxmap) : Prop :=
  v.X = 0 ∧ v.Y = 0 ∧ v.Z = 0 ∧ v.data = none ∧ v.meta = []

/-- The size ceiling test `X*Y*Z > MAXMVOX*1024*1024`, all in `int` arithmetic.
`MAXMVOX` is a constant of `Voxmap.h`. -/
def tooLarge (MAXMVOX X Y Z : Int) : Bool :=
  decide (mul32 (mul32 X Y) Z > mul32 (mul32 MAXMVOX 1024) 1024)

/-- The slice loop of `importDir` from slice `z` on, over the images not yet read:
`none` when a slice's size differs (the caller clears), else the filled buffer. -/
def importSlices (X Y zstride : Int) :
    List QImage → Int → List Byte → Except Fault (Option (List Byte))
  | [], _, buf => .ok (some buf)
  | img :: rest, z, buf =>
    if (img.width : Int) ≠ X ∨ (img.height : Int) ≠ Y then .ok none
    else
      match memcpy buf (mul32 z zstride) img.bits (mul32 X Y) with
      | .error e => .error e
      | .ok buf1 => importSlices X Y zstride rest (z + 1) buf1

/-- The write loop of `importDir`: the bytes `datafile.write` receives for slices
`z, z+1, ...` (`k` of them). -/
def writeSlices (buf : List Byte) (zstride : Int) : Nat → Int → Except Fault (List Byte)
  | 0, _ => .ok []
  | k + 1, z =>
    match slice buf (mul32 z zstride) zstride with
    | .error e => .error e
    | .ok s =>
      match writeSlices buf zstride k (z + 1) with
      | .error e => .error e
      | .ok more => .ok (s ++ more)

/-- The metadata record `importDir` builds on an empty record. -/
def importInfo (X Y Z : Int) (source outbase importdate : String) : QJsonObject :=
  let m0 : QJsonObject := []
  let m1 := QJsonObject.set m0 "width" (.double X)
  let m2 := QJsonObject.set m1 "height" (.double Y)
  let m3 := QJsonObject.set m2 "depth" (.double Z)
  let m4 := QJsonObject.set m3 "source" (.string source)
  let m5 := QJsonObject.set m4 "outbase" (.string outbase)
  QJsonObject.set m5 "importdate" (.string importdate)

/-- The end of `importDir`, after every slice is copied into `buf`: the metadata
record is filled in, then `outbase.json` and `outbase.data` are written where `QFile`
can open them. -/
def importSave (fmt : JsonFormat) (canWrite : String → Bool) (v : Voxmap) (fs : FileSystem)
    (X Y Z : Int) (buf : List Byte) (source outbase importdate : String) :
    Except Fault (Voxmap × FileSystem) :=
  if canWrite (outbase ++ ".data") then
    match writeSlices buf (mul32 X Y) Z.toNat 0 with
    | .error e => .error e
    | .ok bytes =>
      .ok ({ v with X := X, Y := Y, Z := Z, ystride := X, zstride := mul32 X Y,
                    data := some buf,
                    meta := importInfo X Y Z source outbase importdate },
           (outbase ++ ".data", bytes) ::
             (if canWrite (outbase ++ ".json") then
                (outbase ++ ".json",
                  fmt.toJson (importInfo X Y Z source outbase importdate)) :: fs
              else fs))
  else
    .ok ({ v with X := X, Y := Y, Z := Z, ystride := X, zstride := mul32 X Y,
                  data := some buf,
                  meta := importInfo X Y Z source outbase importdate },
         if canWrite (outbase ++ ".json") then
           (outbase ++ ".json", fmt.toJson (importInfo X Y Z source outbase importdate)) :: fs
         else fs)

/-- The part of `importDir` after the first image gave `X`, `Y` and the list gave `Z`:
the ceiling test, the allocation, the slice loop. -/
def importVolume (MAXMVOX : Int) (fmt : JsonFormat) (canWrite : String → Bool)
    (junk : Nat → Byte) (v : Voxmap) (fs : FileSystem) (ifns : List QImage)
    (X Y Z : Int) (source outbase importdate : String) :
    Except Fault (Voxmap × FileSystem) :=
  if tooLarge MAXMVOX X Y Z then .ok (v.clear, fs)
  else
    match newArray junk (mul32 (mul32 X Y) Z) with
    | .error e => .error e
    | .ok buf0 =>
      match importSlices X Y (mul32 X Y) ifns 0 buf0 with
      | .error e => .error e
      | .ok none => .ok ({ v with ystride := X, zstride := mul32 X Y }.clear, fs)
      | .ok (some buf) =>
        importSave fmt canWrite v.clear fs X Y Z buf source outbase importdate

/-- The method `Voxmap::importDir(source, outbase)`. `ifns` holds the images at the
paths `traverse` found, in order; `canWrite` says which paths `QFile` can open for
writing; `importdate` is `QDateTime::currentDateTime().toString()`. The result is
the volume and the files afterwards. -/
def importDir (MAXMVOX : Int) (fmt : JsonFormat) (canWrite : String → Bool)
    (junk : Nat → Byte) (v : Voxmap) (fs : FileSystem) (ifns : List QImage)
    (source outbase importdate : String) : Except Fault (Voxmap × FileSystem) :=
  match ifns with
  | [] => .ok (v.clear, fs)
  | img :: _ =>
    importVolume MAXMVOX fmt canWrite junk v fs ifns img.width img.height ifns.length
      source outbase importdate

/-- The read loop of `loadFromJson` for slices `z, z+1, ...` (`k` of them) over the
bytes `file` not yet read from the data file: `none` on a short read (the caller
clears), else the filled buffer. `QIODevice::read` returns -1 for a negative length,
and `-1 < zstride` is then false. -/
def readSlices (zstride : Int) :
    Nat → Int → List Byte → List Byte → Except Fault (Option (List Byte))
  | 0, _, _, buf => .ok (some buf)
  | k + 1, z, file, buf =>
    if zstride < 0 then readSlices zstride k (z + 1) file buf
    else
      let got := file.take zstride.toNat
      match copyInto buf (mul32 z zstride) got with
      | .error e => .error e
      | .ok buf1 =>
        if (got.length : Int) < zstride then .ok none
        else readSlices zstride k (z + 1) (file.drop zstride.toNat) buf1

/-- The part of `loadFromJson` after the data file is open and `X`, `Y`, `Z` are read
from the record: the ceiling test, the allocation, the read loop. `v` is the volume
with its metadata record set. -/
def loadData (MAXMVOX : Int) (junk : Nat → Byte) (v : Voxmap) (file : List Byte)
    (X Y Z : Int) : Except Fault Voxmap :=
  if tooLarge MAXMVOX X Y Z then .ok v.clear
  else
    match newArray junk (mul32 (mul32 X Y) Z) with
    | .error e => .error e
    | .ok buf0 =>
      match readSlices (mul32 X Y) Z.toNat 0 file buf0 with
      | .error e => .error e
      | .ok none => .ok { v with ystride := X, zstride := mul32 X Y }.clear
      | .ok (some buf) =>
        .ok { v with X := X, Y := Y, Z := Z, ystride := X, zstride := mul32 X Y,
                     data := some buf }

/-- The part of `loadFromJson` after the record `info` is found non-empty: the data
file is opened under the record's `outbase`, then the dimensions are read. Each
`meta[key]` is the non-const `operator[]`, which adds a missing key. -/
def loadVolume (MAXMVOX : Int) (junk : Nat → Byte) (v : Voxmap) (fs : FileSystem)
    (info : QJsonObject) : Except Fault Voxmap :=
  match fs.lookup ((QJsonObject.value info "outbase").toString ++ ".data") with
  | none => .ok v.clear
  | some file =>
    loadData MAXMVOX junk
      { v.clear with
        meta := QJsonObject.touch (QJsonObject.touch (QJsonObject.touch
          (QJsonObject.touch info "outbase") "width") "height") "depth" }
      file
      (QJsonObject.value (QJsonObject.touch info "outbase") "width").toInt
      (QJsonObject.value (QJsonObject.touch (QJsonObject.touch info "outbase") "width")
        "height").toInt
      (QJsonObject.value (QJsonObject.touch (QJsonObject.touch (QJsonObject.touch info
        "outbase") "width") "height") "depth").toInt

/-- The method `Voxmap::loadFromJson(jsonfn)`. -/
def loadFromJson (MAXMVOX : Int) (fmt : JsonFormat) (junk : Nat → Byte) (v : Voxmap)
    (fs : FileSystem) (jsonfn : String) : Except Fault Voxmap :=
  match fs.lookup jsonfn with
  | none => .ok v.clear
  | some text =>
    if (fmt.fromJson (text.take (1000 * 1000))).isObject = false then .ok v.clear
    else if (fmt.fromJson (text.take (1000 * 1000))).voxmap.isEmpty then
      .ok { v.clear with meta := (fmt.fromJson (text.take (1000 * 1000))).voxmap }
    else loadVolume MAXMVOX junk v fs (fmt.fromJson (text.take (1000 * 1000))).voxmap

/-- The volume invariant as the data model states it: the buffer pointer is non-null
exactly when `X`, `Y` and `Z` are all positive. -/
def Voxmap.bufferIffPositive (v : Voxmap) : Prop :=
  v.data ≠ none ↔ (0 < v.X ∧ 0 < v.Y ∧ 0 < v.Z)

/-- The part of the invariant the code keeps: a null buffer comes only with
`X = Y = Z = 0`, so positive `X`, `Y`, `Z` come with a buffer. -/
def Voxmap.nullOnlyWhenZero (v : Voxmap) : Prop :=
  (v.data = none → v.X = 0 ∧ v.Y = 0 ∧ v.Z = 0) ∧
  (0 < v.X ∧ 0 < v.Y ∧ 0 < v.Z → v.data ≠ none)

/-- The ceiling `MAXMVOX*1024*1024` is a non-negative `int`: the constant of
`Voxmap.h` lies in `[0, 2048)`. -/
def CeilingFits (MAXMVOX : Int) : Prop := 0 ≤ MAXMVOX ∧ MAXMVOX < 2048

/-- The record holds no integer under `key`: the field is missing, is not a number,
or is a number that is not integral. -/
def NoIntAt (info : QJsonObject) (key : String) : Prop :=
  ∀ n : Int, info.lookup key ≠ some (.double n)

/-- The path of the data file `loadFromJson` opens for a record. -/
def dataPath (info : QJsonObject) : String :=
  (QJsonObject.value info "outbase").toString ++ ".data"

/-- A volume is left empty in the sense of the load contract: `X = Y = Z = 0` and a
null buffer. -/
def Voxmap.unloaded (v : Voxmap) : Prop :=
  v.X = 0 ∧ v.Y = 0 ∧ v.Z = 0 ∧ v.data = none

/-! ## The viewer (`Viewer.cpp`) -/

/-- The values a C++ loop `for (int d = lo; d <= hi; d++)` visits, in order. -/
def intRange (lo hi : Int) : List Int :=
  (List.range (hi - lo + 1).toNat).map fun (i : Nat) => lo + (i : Int)

/-- The radius `const double Rf = 9./idfactor` of the ball edit, as an exact rational. -/
def ballRf (idfactor : Int) : ℚ := 9 / (idfactor : ℚ)

/-- The loop bound `const int R = ceil(Rf)` of the ball edit. -/
def ballR (idfactor : Int) : Int := ⌈ballRf idfactor⌉

/-- The test `dx*dx + dy*dy + dz*dz < Rf*Rf` of the ball edit. -/
def inBall (idfactor dx dy dz : Int) : Bool :=
  decide (((dx * dx + dy * dy + dz * dz : Int) : ℚ) < ballRf idfactor * ballRf idfactor)

/-- The offsets `(dx, dy, dz)` at which the ball edit of
`Viewer::mouseDoubleClickEvent` calls `idmap->paint(p.x+dx, p.y+dy, p.z+dz, ...)`, in
the order of the three nested loops (the same loops serve Draw and Erase mode). -/
def ballOffsets (idfactor : Int) : List (Int × Int × Int) :=
  (intRange (-ballR idfactor) (ballR idfactor)).flatMap fun dx =>
    (intRange (-ballR idfactor) (ballR idfactor)).flatMap fun dy =>
      ((intRange (-ballR idfactor) (ballR idfactor)).filter fun dz =>
        inBall idfactor dx dy dz).map fun dz => (dx, dy, dz)

/-- The row bound `h*i/nthreads` of `Viewer::rebuild` and `Viewer::rebuildID`, with
`nthreads = 4`: an `int` product, then a division that truncates. Worker `i` is handed
the rows `[rowStart h i, rowStart h (i+1))`. -/
def rowStart (h i : Int) : Int := Int.tdiv (mul32 h i) 4

/-- The four row ranges partition `[0, h)`: the first starts at 0, the last ends at
`h`, each range ends where the next starts and not before it starts, and every row of
`[0, h)` lies in exactly one range. -/
def RowsPartitioned (h : Int) : Prop :=
  rowStart h 0 = 0 ∧ rowStart h 4 = h ∧
  (∀ i : Int, 0 ≤ i → i < 4 → rowStart h i ≤ rowStart h (i + 1)) ∧
  (∀ y : Int, 0 ≤ y → y < h →
    ∃! i : Int, (0 ≤ i ∧ i < 4) ∧ rowStart h i ≤ y ∧ y < rowStart h (i + 1))

/-- The pixels of a `QImage` of format RGB32: `img y x` is the `uint32_t` at column `x`
of `scanLine(y)`. -/
abbrev Pixels := Int → Nat → Nat

/-- The call `img.setPixel(QPoint(px, py), v)`. -/
def setPixel (img : Pixels) (px : Nat) (py : Int) (v : Nat) : Pixels :=
  fun y x => if y = py ∧ x = px then v else img y x

/-- The tint `rebuildID` applies to a pixel `p` under the label colour `cc`: the bytes
`dst[0..2]` become `dst[i]*src[i]/256`, the byte `dst[3]` stays (bytes in memory order,
lowest first). -/
def tint (p cc : Nat) : Nat :=
  (p % 256) * (cc % 256) / 256
    + 256 * ((p / 256 % 256) * (cc / 256 % 256) / 256)
    + 65536 * ((p / 65536 % 256) * (cc / 65536 % 256) / 256)
    + 16777216 * (p / 16777216)

/-- The loop `for (int x=0; x<w; x++)` of `rebuildID` over one row, for the first `k`
columns: a pixel whose label `buf[x]` is not 0 is tinted with `dc.color(buf[x])`. -/
def overlayRow (color : Nat → Nat) (buf : Nat → Nat) : Nat → (Nat → Nat) → (Nat → Nat)
  | 0, row => row
  | k + 1, row =>
    if buf k ≠ 0 then
      Function.update (overlayRow color buf k row) k
        (tint (overlayRow color buf k row k) (color (buf k)))
    else overlayRow color buf k row

/-- The loop `for (int y=y0; y<y1; y++)` of one worker of `rebuildID`, over the rows
`ys`; `scan y` is the label row `idmap->scanLine(tid, y, w, buf)` fills. -/
def overlayRows (color : Nat → Nat) (scan : Int → Nat → Nat) (w : Nat) :
    List Int → Pixels → Pixels
  | [], img => img
  | y :: ys, img =>
    overlayRows color scan w ys
      (Function.update img y (overlayRow color (scan y) w (img y)))

/-- The image `Viewer::rebuildID` builds before it is scaled for display. With a label
map set and the overlay shown: a copy of `im0`, the pixel (0,0) set to `0xffffffff`
(`// force detach`), then the four workers, each over its row range, run one after the
other. Otherwise `im0` itself. `color` is `DistinctColors::color`. -/
def rebuildID (idmapSet showids : Bool) (color : Nat → Nat) (scan : Int → Nat → Nat)
    (w h : Int) (im0 : Pixels) : Pixels :=
  if idmapSet && showids then
    [0, 1, 2, 3].foldl
      (fun (img : Pixels) (i : Int) =>
        overlayRows color scan w.toNat
          (intRange (rowStart h i) (rowStart h (i + 1) - 1)) img)
      (setPixel im0 0 0 4294967295)
  else im0

/-- One step of the depth march of `Voxmap::scanLineTrilDepth` on a sample `s`
(the value `trilinear(x1, y1, z1)`): `here = s/255.0`, `halpha = sqrt(here)`,
`gray = here*halpha + gray*(1-halpha)`. The number type and its square root are
parameters. -/
def depthStep {α : Type} [Field α] (sqrtf : α → α) (gray s : α) : α :=
  s / 255 * sqrtf (s / 255) + gray * (1 - sqrtf (s / 255))

/-- The value of `gray` after the `nz` steps of the depth march over the samples, in
march order; `gray` starts at 0. -/
def depthGray {α : Type} [Field α] (sqrtf : α → α) (samples : List α) : α :=
  samples.foldl (depthStep sqrtf) 0

/-- The largest of the normalised samples `s/255`, and 0 for no sample. -/
def maxHere {α : Type} [LinearOrderedField α] (samples : List α) : α :=
  (samples.map fun s => s / 255).foldr max 0

/-! ## The scanline sampler (`Voxmap::scanLine`) -/

/-- A `Point3`; exact rationals stand for its `float` coordinates. -/
structure Point3 where
  x : ℚ
  y : ℚ
  z : ℚ

/-- Modelled from the spec: `Transform3` (declared in a header that is not among the
sources), "stored as a linear part (3×3) plus translation (3×1)". `m i j` is `m[i][j]`,
the field `scanLine` reads. -/
structure Transform3 where
  m : Fin 3 → Fin 3 → ℚ
  shift : Fin 3 → ℚ

/-- Modelled from the spec: `Transform3::apply`, "linear map + translate"; its body is
not among the sources. -/
def Transform3.apply (t : Transform3) (p : Point3) : Point3 :=
  { x := t.m 0 0 * p.x + t.m 0 1 * p.y + t.m 0 2 * p.z + t.shift 0,
    y := t.m 1 0 * p.x + t.m 1 1 * p.y + t.m 1 2 * p.z + t.shift 1,
    z := t.m 2 0 * p.x + t.m 2 1 * p.y + t.m 2 2 * p.z + t.shift 2 }

/-- The conversion `int(q)` of a `float`: truncation toward zero. -/
def truncInt (q : ℚ) : Int := if 0 ≤ q then ⌊q⌋ else ⌈q⌉

/-- The C++ expression `a+b` on two `int`s. -/
def add32 (a b : Int) : Int := wrap32 (a + b)

/-- The read `data[i]`. -/
def Voxmap.readData (v : Voxmap) (i : Int) : Except Fault Byte :=
  match v.data with
  | none => .error .outOfBounds
  | some buf =>
    if 0 ≤ i ∧ i < buf.length then .ok (buf.getD i.toNat 0) else .error .outOfBounds

/-- The index `int(x0)+int(y0)*ystride+int(z0)*zstride` of the fast path of `scanLine`,
in `int` arithmetic. -/
def Voxmap.fastIndex (v : Voxmap) (x y z : ℚ) : Int :=
  add32 (add32 (truncInt x) (mul32 (truncInt y) v.ystride)) (mul32 (truncInt z) v.zstride)

/-- Modelled from the spec: `Voxmap::pixelAt` (defined in `Voxmap.h`, not among the
sources), the point sample that "truncates coordinates toward zero; returns `nullval`
if the truncated coordinate lies outside `[0,X)×[0,Y)×[0,Z)`, else the stored byte",
the byte at "index = x + y·X + z·X·Y". -/
def Voxmap.pixelAt (v : Voxmap) (x y z : ℚ) : Except Fault Byte :=
  if 0 ≤ truncInt x ∧ truncInt x < v.X ∧ 0 ≤ truncInt y ∧ truncInt y < v.Y ∧
      0 ≤ truncInt z ∧ truncInt z < v.Z then
    v.readData (truncInt x + truncInt y * v.X + truncInt z * (v.X * v.Y))
  else .ok v.nullval

/-- The test `x>=0 && y>=0 && z>=0 && x<X && y<Y && z<Z` of `scanLine` on one end
point. -/
def Voxmap.inBox (v : Voxmap) (p : Point3) : Bool :=
  decide (0 ≤ p.x ∧ 0 ≤ p.y ∧ 0 ≤ p.z ∧ p.x < v.X ∧ p.y < v.Y ∧ p.z < v.Z)

/-- The fast loop of `scanLine` for `k` columns from the point `p`, stepping by `d`:
the bytes stored through `dest`. -/
def Voxmap.scanFast (v : Voxmap) (lut : Byte → Byte) (d : Point3) :
    Nat → Point3 → Except Fault (List Byte)
  | 0, _ => .ok []
  | k + 1, p =>
    match v.readData (v.fastIndex p.x p.y p.z) with
    | .error e => .error e
    | .ok b =>
      match Voxmap.scanFast v lut d k ⟨p.x + d.x, p.y + d.y, p.z + d.z⟩ with
      | .error e => .error e
      | .ok more => .ok (lut b :: more)

/-- The bounds-checked loop of `scanLine`, `*dest++ = lut[pixelAt(x0, y0, z0)]`. -/
def Voxmap.scanChecked (v : Voxmap) (lut : Byte → Byte) (d : Point3) :
    Nat → Point3 → Except Fault (List Byte)
  | 0, _ => .ok []
  | k + 1, p =>
    match v.pixelAt p.x p.y p.z with
    | .error e => .error e
    | .ok b =>
      match Voxmap.scanChecked v lut d k ⟨p.x + d.x, p.y + d.y, p.z + d.z⟩ with
      | .error e => .error e
      | .ok more => .ok (lut b :: more)

/-- The point `(x0, y0, z0)` of `scanLine` for column `ix` of row `y` at depth `z`
when the march starts: `t.apply(Point3(ix, y, z))` plus `.5` on each axis. -/
def samplePoint (t : Transform3) (ix y z : Int) : Point3 :=
  { x := (t.apply ⟨ix, y, z⟩).x + 1 / 2,
    y := (t.apply ⟨ix, y, z⟩).y + 1 / 2,
    z := (t.apply ⟨ix, y, z⟩).z + 1 / 2 }

/-- The step `(dx, dy, dz) = (t.m[0][0], t.m[1][0], t.m[2][0])` of `scanLine`. -/
def columnStep (t : Transform3) : Point3 :=
  { x := t.m 0 0, y := t.m 1 0, z := t.m 2 0 }

/-- The method `Voxmap::scanLine(t, y, z, nx, dest, lut)`: the `nx` bytes stored
through `dest`. -/
def Voxmap.scanLine (v : Voxmap) (t : Transform3) (y z nx : Int) (lut : Byte → Byte) :
    Except Fault (List Byte) :=
  if v.inBox (samplePoint t 0 y z) && v.inBox (samplePoint t (nx - 1) y z) then
    v.scanFast lut (columnStep t) nx.toNat (samplePoint t 0 y z)
  else
    v.scanChecked lut (columnStep t) nx.toNat (samplePoint t 0 y z)

/-! ## Concrete inputs used to instantiate the theorems -/

/-- A JSON format stub for concrete instances: every text parses to the document
`{"voxmap": record}`. -/
def stubFormat (record : QJsonObject) : JsonFormat :=
  { toJson := fun _ => [], fromJson := fun _ => ⟨true, record⟩ }

/-- An image of the given size whose bytes are all `b`. -/
def flatImage (w h : Nat) (b : Byte) : QImage :=
  { width := w, height := h, bits := fun _ => b }

/-- A metadata record with the four fields `loadFromJson` reads. -/
def recordOf (w h d : ℚ) (outbase : String) : QJsonObject :=
  [("width", .double w), ("height", .double h), ("depth", .double d),
    ("outbase", .string outbase)]

/-- Two 2×2 slices, the first filled with 7 and the second with 9. -/
def twoSlices : List QImage := [flatImage 2 2 7, flatImage 2 2 9]

/-- The volume `importDir` builds from `twoSlices` under `source = "dir"`,
`outbase = "vol"`, and the two files it writes with `stubFormat`. -/
def twoSlicesImported : Voxmap × FileSystem :=
  ({ X := 2, Y := 2, Z := 2, ystride := 2, zstride := 4,
     data := some [7, 7, 7, 7, 9, 9, 9, 9], nullval := 0,
     meta := importInfo 2 2 2 "dir" "vol" "today" },
   [("vol.data", [7, 7, 7, 7, 9, 9, 9, 9]), ("vol.json", [])])

/-- The identity transform. -/
def idTransform : Transform3 :=
  { m := fun i j => if i = j then 1 else 0, shift := fun _ => 0 }

/-! # Theorems -/

/-! ## Lemmas on machine integers and buffers -/

theorem wrap32_of_fits {n : Int} (h0 : -2147483648 ≤ n) (h1 : n < 2147483648) :
    wrap32 n = n := by
  unfold wrap32
  omega

theorem wrap32_lt (n : Int) : wrap32 n < 2147483648 := by
  unfold wrap32
  omega

theorem wrap32_ge (n : Int) : -2147483648 ≤ wrap32 n := by
  unfold wrap32
  omega

theorem copyInto_length {buf src out : List Byte} {off : Int}
    (h : copyInto buf off src = .ok out) : out.length = buf.length := by
  unfold copyInto at h
  split at h
  · cases h; rfl
  · split at h
    · cases h
    · rename_i hs hb
      cases h
      simp only [List.length_append, List.length_take, List.length_drop]
      omega

theorem copyInto_ok (buf src : List Byte) (off : Int) (h0 : 0 ≤ off)
    (h1 : off + src.length ≤ buf.length) : ∃ out, copyInto buf off src = .ok out := by
  unfold copyInto
  split
  · exact ⟨_, rfl⟩
  · rw [if_neg (by omega)]
    exact ⟨_, rfl⟩

/-! ## `importDir`: a slice of another size -/

theorem clear_isEmpty (v : Voxmap) : v.clear.isEmpty :=
  ⟨rfl, rfl, rfl, rfl, rfl⟩

theorem tooLarge_wrapped_zero (M : Int) (h0 : 0 ≤ M) (h1 : M < 2048) :
    tooLarge M 65536 65536 1 = false := by
  unfold tooLarge mul32 wrap32
  simp only [gt_iff_lt, decide_eq_false_iff_not, not_lt]
  omega

theorem readSlices_zero_stride :
    ∀ (k : Nat) (z : Int) (file buf : List Byte),
      readSlices 0 k z file buf = .ok (some buf) := by
  intro k
  induction k with
  | zero => intro z file buf; rfl
  | succ k ih =>
    intro z file buf
    rw [readSlices]
    simp [copyInto, ih]

/-- C2 (the code at the failing input): with a ceiling `MAXMVOX*1024*1024` that fits
an `int` (`0 ≤ MAXMVOX < 2048`), the sizes `X = Y = 65536`, `Z = 1` have a product
`2^32` above the ceiling, yet `X*Y*Z` wraps to `0`: `loadFromJson` on such a record
and `importDir` on one such image both keep `X = Y = 65536`, `Z = 1` and a non-null
(zero-length) buffer instead of leaving the volume empty. -/
theorem ceiling_test_overflows (M : Int) (h0 : 0 ≤ M) (h1 : M < 2048) (fmt : JsonFormat)
    (canWrite : String → Bool) (junk : Nat → Byte) (v : Voxmap) (fs : FileSystem)
    (jsonfn outbase source importdate : String) (text file : List Byte) (bits : Nat → Byte)
    (hjson : fs.lookup jsonfn = some text)
    (hparse : fmt.fromJson (text.take (1000 * 1000)) =
      ⟨true, [("width", .double 65536), ("height", .double 65536), ("depth", .double 1),
        ("outbase", .string outbase)]⟩)
    (hdata : fs.lookup (outbase ++ ".data") = some file) :
    (65536 * 65536 * 1 : Int) > M * 1024 * 1024 ∧
    (∃ w, loadFromJson M fmt junk v fs jsonfn = .ok w ∧
      w.X = 65536 ∧ w.Y = 65536 ∧ w.Z = 1 ∧ w.data = some []) ∧
    (∃ r, importDir M fmt canWrite junk v fs [⟨65536, 65536, bits⟩] source outbase
        importdate = .ok r ∧
      r.1.X = 65536 ∧ r.1.Y = 65536 ∧ r.1.Z = 1 ∧ r.1.data = some []) := by
  have hT := tooLarge_wrapped_zero M h0 h1
  have hxy : mul32 65536 65536 = 0 := by decide
  have hxyz : mul32 (mul32 65536 65536) 1 = 0 := by decide
  refine ⟨by omega, ?_, ?_⟩
  · rw [loadFromJson, hjson]
    simp only [hparse]
    rw [loadVolume]
    have ho : (QJsonObject.value [("width", QJsonValue.double 65536),
        ("height", QJsonValue.double 65536), ("depth", QJsonValue.double 1),
        ("outbase", QJsonValue.string outbase)] "outbase").toString = outbase := by
      simp [QJsonObject.value, List.lookup, QJsonValue.toString]
    have hw : (QJsonObject.value (QJsonObject.touch [("width", QJsonValue.double 65536),
        ("height", QJsonValue.double 65536), ("depth", QJsonValue.double 1),
        ("outbase", QJsonValue.string outbase)] "outbase") "width").toInt = 65536 := by
      simp [QJsonObject.value, QJsonObject.touch, List.lookup, QJsonValue.toInt]
    have hh : (QJsonObject.value (QJsonObject.touch (QJsonObject.touch
        [("width", QJsonValue.double 65536),
        ("height", QJsonValue.double 65536), ("depth", QJsonValue.double 1),
        ("outbase", QJsonValue.string outbase)] "outbase") "width") "height").toInt
        = 65536 := by
      simp [QJsonObject.value, QJsonObject.touch, List.lookup, QJsonValue.toInt]
    have hd : (QJsonObject.value (QJsonObject.touch (QJsonObject.touch (QJsonObject.touch
        [("width", QJsonValue.double 65536),
        ("height", QJsonValue.double 65536), ("depth", QJsonValue.double 1),
        ("outbase", QJsonValue.string outbase)] "outbase") "width") "height") "depth").toInt
        = 1 := by
      simp [QJsonObject.value, QJsonObject.touch, List.lookup, QJsonValue.toInt]
    rw [ho, hdata]
    simp only [hw, hh, hd]
    rw [loadData, hT]
    rw [hxyz, hxy]
    have hn : newArray junk 0 = .ok [] := rfl
    simp only [hn, readSlices_zero_stride, Bool.true_eq_false, Bool.false_eq_true, if_false,
      List.isEmpty_cons]
    exact ⟨_, rfl, rfl, rfl, rfl, rfl⟩
  · rw [importDir]
    show ∃ r, importVolume M fmt canWrite junk v fs [⟨65536, 65536, bits⟩] 65536 65536 1
        source outbase importdate = .ok r ∧ _
    rw [importVolume, hT]
    rw [hxyz, hxy]
    have hs : importSlices 65536 65536 0 [⟨65536, 65536, bits⟩] 0 [] = .ok (some []) := by
      rw [importSlices]
      rw [if_neg (by simp)]
      rw [hxy]
      rfl
    have hn : newArray junk 0 = .ok [] := rfl
    simp only [hn, hs, Bool.false_eq_true, if_false]
    rw [importSave]
    have hwz : writeSlices [] (mul32 65536 65536) (1 : Int).toNat 0 = .ok [] := by
      rw [hxy]; rfl
    split
    · rw [hwz]
      exact ⟨_, rfl, rfl, rfl, rfl, rfl⟩
    · exact ⟨_, rfl, rfl, rfl, rfl, rfl⟩

theorem ceiling_test_overflows_witness :
    (65536 * 65536 * 1 : Int) > 1 * 1024 * 1024 ∧
    (∃ w, loadFromJson 1 (stubFormat (recordOf 65536 65536 1 "vol")) (fun _ => 0) Voxmap.new
        [("vol.json", []), ("vol.data", [])] "vol.json" = .ok w ∧
      w.X = 65536 ∧ w.Y = 65536 ∧ w.Z = 1 ∧ w.data = some []) ∧
    (∃ r, importDir 1 (stubFormat (recordOf 65536 65536 1 "vol")) (fun _ => true) (fun _ => 0)
        Voxmap.new [("vol.json", []), ("vol.data", [])] [⟨65536, 65536, fun _ => 0⟩]
        "dir" "vol" "today" = .ok r ∧
      r.1.X = 65536 ∧ r.1.Y = 65536 ∧ r.1.Z = 1 ∧ r.1.data = some []) :=
  ceiling_test_overflows 1 (by decide) (by decide) (stubFormat (recordOf 65536 65536 1 "vol"))
    (fun _ => true) (fun _ => 0) Voxmap.new [("vol.json", []), ("vol.data", [])]
    "vol.json" "vol" "dir" "today" [] [] (fun _ => 0) (by decide) rfl (by decide)

/-! ## The volume invariant -/

theorem nullOnlyWhenZero_clear (v : Voxmap) : v.clear.nullOnlyWhenZero :=
  ⟨fun _ => ⟨rfl, rfl, rfl⟩, fun h => absurd h.1 (lt_irrefl (0 : Int))⟩

theorem nullOnlyWhenZero_of_data {v : Voxmap} {buf : List Byte} (h : v.data = some buf) :
    v.nullOnlyWhenZero := by
  constructor
  · intro h0
    rw [h] at h0
    cases h0
  · intro _ h0
    rw [h] at h0
    cases h0

theorem importSave_data {fmt : JsonFormat} {canWrite : String → Bool} {v : Voxmap}
    {fs : FileSystem} {X Y Z : Int} {buf : List Byte} {source outbase importdate : String}
    {r : Voxmap × FileSystem}
    (h : importSave fmt canWrite v fs X Y Z buf source outbase importdate = .ok r) :
    r.1.X = X ∧ r.1.Y = Y ∧ r.1.Z = Z ∧ r.1.ystride = X ∧ r.1.zstride = mul32 X Y ∧
      r.1.data = some buf ∧ r.1.meta = importInfo X Y Z source outbase importdate := by
  rw [importSave] at h
  split at h
  · split at h
    · cases h
    · cases h
      exact ⟨rfl, rfl, rfl, rfl, rfl, rfl, rfl⟩
  · cases h
    exact ⟨rfl, rfl, rfl, rfl, rfl, rfl, rfl⟩

theorem importDir_nullOnlyWhenZero {MAXMVOX : Int} {fmt : JsonFormat}
    {canWrite : String → Bool} {junk : Nat → Byte} {v : Voxmap} {fs : FileSystem}
    {ifns : List QImage} {source outbase importdate : String} {r : Voxmap × FileSystem}
    (h : importDir MAXMVOX fmt canWrite junk v fs ifns source outbase importdate = .ok r) :
    r.1.nullOnlyWhenZero := by
  cases ifns with
  | nil =>
    rw [importDir] at h
    cases h
    exact nullOnlyWhenZero_clear v
  | cons img rest =>
    rw [importDir, importVolume] at h
    split at h
    · cases h
      exact nullOnlyWhenZero_clear v
    · split at h
      · cases h
      · split at h
        · cases h
        · cases h
          exact nullOnlyWhenZero_clear _
        · exact nullOnlyWhenZero_of_data (importSave_data h).2.2.2.2.2.1

theorem loadData_nullOnlyWhenZero {MAXMVOX : Int} {junk : Nat → Byte} {v w : Voxmap}
    {file : List Byte} {X Y Z : Int} (h : loadData MAXMVOX junk v file X Y Z = .ok w) :
    w.nullOnlyWhenZero := by
  rw [loadData] at h
  split at h
  · cases h
    exact nullOnlyWhenZero_clear v
  · split at h
    · cases h
    · split at h
      · cases h
      · cases h
        exact nullOnlyWhenZero_clear _
      · cases h
        exact nullOnlyWhenZero_of_data rfl

theorem loadFromJson_nullOnlyWhenZero {MAXMVOX : Int} {fmt : JsonFormat}
    {junk : Nat → Byte} {v w : Voxmap} {fs : FileSystem} {jsonfn : String}
    (h : loadFromJson MAXMVOX fmt junk v fs jsonfn = .ok w) : w.nullOnlyWhenZero := by
  rw [loadFromJson] at h
  split at h
  · cases h
    exact nullOnlyWhenZero_clear v
  · split at h
    · cases h
      exact nullOnlyWhenZero_clear v
    · split at h
      · cases h
        exact ⟨fun _ => ⟨rfl, rfl, rfl⟩, fun h => absurd h.1 (lt_irrefl (0 : Int))⟩
      · rw [loadVolume] at h
        split at h
        · cases h
          exact nullOnlyWhenZero_clear v
        · exact loadData_nullOnlyWhenZero h

theorem tooLarge_of_nonpos {M X Y Z : Int} (hM : CeilingFits M)
    (h : mul32 (mul32 X Y) Z ≤ 0) : tooLarge M X Y Z = false := by
  obtain ⟨h0, h1⟩ := hM
  have hc : mul32 (mul32 M 1024) 1024 = M * 1048576 := by
    unfold mul32 wrap32
    omega
  unfold tooLarge
  rw [hc]
  simp only [gt_iff_lt, decide_eq_false_iff_not, not_lt]
  omega

theorem importDir_unreadable_image (M : Int) (hM : CeilingFits M) :
    ∃ r, importDir M (stubFormat []) (fun _ => true) (fun _ => 0) Voxmap.new []
        [flatImage 0 0 0] "dir" "vol" "today" = .ok r ∧
      r.1.X = 0 ∧ r.1.Y = 0 ∧ r.1.Z = 1 ∧ r.1.data = some [] := by
  have hxy : mul32 0 0 = 0 := by decide
  have hxyz : mul32 (mul32 0 0) 1 = 0 := by decide
  have hT : tooLarge M 0 0 1 = false := tooLarge_of_nonpos hM (by rw [hxyz])
  rw [importDir]
  show ∃ r, importVolume M (stubFormat []) (fun _ => true) (fun _ => 0) Voxmap.new []
      [flatImage 0 0 0] 0 0 1 "dir" "vol" "today" = .ok r ∧ _
  rw [importVolume, hT, hxyz, hxy]
  have hs : importSlices 0 0 0 [flatImage 0 0 0] 0 [] = .ok (some []) := by
    rw [importSlices]
    rw [if_neg (by simp [flatImage])]
    rw [hxy]
    rfl
  have hn : newArray (fun _ => (0 : Byte)) 0 = .ok [] := rfl
  simp only [hn, hs, Bool.false_eq_true, if_false]
  exact ⟨_, rfl, rfl, rfl, rfl, rfl⟩

/-- C4 (as stated, refuted): importing a directory whose only image is unreadable
(width 0, height 0) returns with `X = Y = 0`, `Z = 1` and a non-null zero-length
buffer, so "buffer non-null iff `X`, `Y`, `Z` all positive" fails after `importDir`,
for every ceiling constant `MAXMVOX` in `[0, 2048)`. -/
theorem bufferIffPositive_fails :
    ¬ ∃ M : Int, CeilingFits M ∧
      ∀ r, importDir M (stubFormat []) (fun _ => true) (fun _ => 0) Voxmap.new []
          [flatImage 0 0 0] "dir" "vol" "today" = .ok r → r.1.bufferIffPositive := by
  rintro ⟨M, hM, h⟩
  obtain ⟨r, hr, hX, _, _, hd⟩ := importDir_unreadable_image M hM
  have hiff := h r hr
  have hpos := hiff.mp (by rw [hd]; exact Option.some_ne_none _)
  rw [hX] at hpos
  exact lt_irrefl (0 : Int) hpos.1

/-- C4 (amended): after construction and after every call of `clear`, `importDir` and
`loadFromJson` that returns, a null buffer pointer comes only with `X = Y = Z = 0`;
hence the buffer is non-null whenever `X`, `Y` and `Z` are all positive. (The converse
is not kept: a zero dimension leaves a non-null zero-length buffer.) An import of an
empty file list returns the cleared volume. -/
theorem buffer_nonnull_when_positive :
    Voxmap.new.nullOnlyWhenZero ∧
    (∀ v : Voxmap, v.clear.nullOnlyWhenZero) ∧
    (∀ (MAXMVOX : Int) (fmt : JsonFormat) (canWrite : String → Bool) (junk : Nat → Byte)
        (v : Voxmap) (fs : FileSystem) (ifns : List QImage)
        (source outbase importdate : String) (r : Voxmap × FileSystem),
      importDir MAXMVOX fmt canWrite junk v fs ifns source outbase importdate = .ok r →
        r.1.nullOnlyWhenZero) ∧
    (∀ (MAXMVOX : Int) (fmt : JsonFormat) (junk : Nat → Byte) (v : Voxmap)
        (fs : FileSystem) (jsonfn : String) (w : Voxmap),
      loadFromJson MAXMVOX fmt junk v fs jsonfn = .ok w → w.nullOnlyWhenZero) ∧
    (∀ (MAXMVOX : Int) (fmt : JsonFormat) (canWrite : String → Bool) (junk : Nat → Byte)
        (v : Voxmap) (fs : FileSystem) (source outbase importdate : String),
      importDir MAXMVOX fmt canWrite junk v fs [] source outbase importdate
        = .ok (v.clear, fs)) :=
  ⟨⟨fun _ => ⟨rfl, rfl, rfl⟩, fun h => absurd h.1 (lt_irrefl (0 : Int))⟩,
    nullOnlyWhenZero_clear,
    fun _ _ _ _ _ _ _ _ _ _ _ h => importDir_nullOnlyWhenZero h,
    fun _ _ _ _ _ _ _ h => loadFromJson_nullOnlyWhenZero h,
    fun _ _ _ _ _ _ _ _ _ => rfl⟩

/-! ## `loadFromJson`: reading the record and a short data file -/

theorem touch_of_lookup {o : QJsonObject} {key : String} {x : QJsonValue}
    (h : o.lookup key = some x) : QJsonObject.touch o key = o := by
  unfold QJsonObject.touch
  rw [h]
  rfl

theorem value_of_lookup {o : QJsonObject} {key : String} {x : QJsonValue}
    (h : o.lookup key = some x) : QJsonObject.value o key = x := by
  unfold QJsonObject.value
  rw [h]
  rfl

theorem toInt_double_int {n : Int} (h0 : -2147483648 ≤ n) (h1 : n < 2147483648) :
    (QJsonValue.double (n : ℚ)).toInt = n := by
  unfold QJsonValue.toInt
  simp only [Rat.intCast_den, Rat.intCast_num, true_and]
  rw [if_pos ⟨h0, h1⟩]

theorem readSlices_short (m : Nat) (hm : 0 < m) :
    ∀ (k z : Nat) (file buf : List Byte),
      (z + k) * m ≤ buf.length → buf.length < 2147483648 → file.length < k * m →
      readSlices (m : Int) k (z : Int) file buf = .ok none := by
  intro k
  induction k with
  | zero =>
    intro z file buf _ _ hshort
    simp at hshort
  | succ k ih =>
    intro z file buf hfit hlen hshort
    have hzm : z * m + m ≤ buf.length := by
      have : (z + 1) * m ≤ (z + (k + 1)) * m := Nat.mul_le_mul_right _ (by omega)
      rw [Nat.add_mul, Nat.one_mul] at this
      omega
    have hoff : mul32 (z : Int) (m : Int) = ((z * m : Nat) : Int) := by
      unfold mul32
      rw [← Nat.cast_mul]
      apply wrap32_of_fits <;> omega
    rw [readSlices, if_neg (by omega)]
    simp only [Int.toNat_ofNat, hoff]
    obtain ⟨out, hout⟩ := copyInto_ok buf (file.take m) ((z * m : Nat) : Int) (by omega)
      (by
        have : (file.take m).length ≤ m := List.length_take_le _ _
        omega)
    rw [hout]
    have hl := copyInto_length hout
    by_cases hgot : ((List.take m file).length : Int) < (m : Int)
    · simp only [hgot, if_true]
    · simp only [hgot, if_false]
      have hge : m ≤ file.length := by
        rw [List.length_take] at hgot
        omega
      have := ih (z + 1) (file.drop m) out
        (by rw [hl]; have : z + 1 + k = z + (k + 1) := by omega
            rw [this]; exact hfit)
        (by omega)
        (by
          rw [List.length_drop]
          rw [Nat.add_mul, Nat.one_mul] at hshort
          omega)
      rw [Nat.cast_add, Nat.cast_one] at this
      exact this

theorem tooLarge_within {M : Int} {n : Nat} (hM : CeilingFits M)
    (hn : (n : Int) ≤ M * 1024 * 1024) {X Y Z : Int} (h : mul32 (mul32 X Y) Z = n) :
    tooLarge M X Y Z = false := by
  obtain ⟨h0, h1⟩ := hM
  have hc : mul32 (mul32 M 1024) 1024 = M * 1048576 := by
    unfold mul32 wrap32
    omega
  unfold tooLarge
  rw [hc, h]
  simp only [gt_iff_lt, decide_eq_false_iff_not, not_lt]
  omega

/-- The reading of a record that holds `width`, `height`, `depth` as the `int`s `X`,
`Y`, `Z` and `outbase` as a string. -/
theorem loadVolume_of_fields {M : Int} {junk : Nat → Byte} {v : Voxmap} {fs : FileSystem}
    {info : QJsonObject} {outbase : String} {file : List Byte} {X Y Z : Int}
    (hw : info.lookup "width" = some (.double X))
    (hh : info.lookup "height" = some (.double Y))
    (hd : info.lookup "depth" = some (.double Z))
    (ho : info.lookup "outbase" = some (.string outbase))
    (hX : -2147483648 ≤ X ∧ X < 2147483648) (hY : -2147483648 ≤ Y ∧ Y < 2147483648)
    (hZ : -2147483648 ≤ Z ∧ Z < 2147483648)
    (hdata : fs.lookup (outbase ++ ".data") = some file) :
    loadVolume M junk v fs info
      = loadData M junk { v.clear with meta := info } file X Y Z := by
  rw [loadVolume]
  rw [touch_of_lookup ho, touch_of_lookup hw, touch_of_lookup hh, touch_of_lookup hd,
    value_of_lookup ho, value_of_lookup hw, value_of_lookup hh, value_of_lookup hd,
    toInt_double_int hX.1 hX.2, toInt_double_int hY.1 hY.2, toInt_double_int hZ.1 hZ.2]
  simp only [QJsonValue.toString, hdata]

theorem loadFromJson_of_record {M : Int} {fmt : JsonFormat} {junk : Nat → Byte}
    {v : Voxmap} {fs : FileSystem} {jsonfn : String} {text : List Byte}
    {info : QJsonObject} {key : String} {x : QJsonValue}
    (hjson : fs.lookup jsonfn = some text)
    (hparse : fmt.fromJson (text.take (1000 * 1000)) = ⟨true, info⟩)
    (hkey : info.lookup key = some x) :
    loadFromJson M fmt junk v fs jsonfn = loadVolume M junk v fs info := by
  have hne : info.isEmpty = false := by
    cases info with
    | nil => cases hkey
    | cons e rest => rfl
  rw [loadFromJson, hjson]
  simp only [hparse, hne, Bool.true_eq_false, Bool.false_eq_true, if_false]

/-- C5: for a metadata record holding positive `int` dimensions `X`, `Y`, `Z` with
`X*Y*Z` within the ceiling (a ceiling that fits an `int`) and a data file of fewer
than `X*Y*Z` bytes, `loadFromJson` returns with the volume empty: `X = Y = Z = 0`, null
buffer, empty metadata record; the slices read before the short read are dropped. -/
theorem loadFromJson_short_data (M : Int) (fmt : JsonFormat) (junk : Nat → Byte)
    (v : Voxmap) (fs : FileSystem) (jsonfn outbase : String) (text file : List Byte)
    (info : QJsonObject) (X Y Z : Int)
    (hjson : fs.lookup jsonfn = some text)
    (hparse : fmt.fromJson (text.take (1000 * 1000)) = ⟨true, info⟩)
    (hw : info.lookup "width" = some (.double X))
    (hh : info.lookup "height" = some (.double Y))
    (hd : info.lookup "depth" = some (.double Z))
    (ho : info.lookup "outbase" = some (.string outbase))
    (hX : 0 < X) (hY : 0 < Y) (hZ : 0 < Z)
    (hM : CeilingFits M) (hceil : X * Y * Z ≤ M * 1024 * 1024)
    (hdata : fs.lookup (outbase ++ ".data") = some file)
    (hshort : (file.length : Int) < X * Y * Z) :
    ∃ w, loadFromJson M fmt junk v fs jsonfn = .ok w ∧ w.isEmpty := by
  obtain ⟨x, rfl⟩ := Int.eq_ofNat_of_zero_le (le_of_lt hX)
  obtain ⟨y, rfl⟩ := Int.eq_ofNat_of_zero_le (le_of_lt hY)
  obtain ⟨z, rfl⟩ := Int.eq_ofNat_of_zero_le (le_of_lt hZ)
  have hx : 0 < x := by exact_mod_cast hX
  have hy : 0 < y := by exact_mod_cast hY
  have hz : 0 < z := by exact_mod_cast hZ
  have hbig : x * y * z < 2147483648 := by
    have h1 := hM.2
    have : ((x * y * z : Nat) : Int) ≤ M * 1024 * 1024 := by exact_mod_cast hceil
    omega
  have hxy : x * y ≤ x * y * z := Nat.le_mul_of_pos_right _ hz
  have hxle : x ≤ x * y := Nat.le_mul_of_pos_right _ hy
  have hyle : y ≤ x * y := Nat.le_mul_of_pos_left _ hx
  have hzle : z ≤ x * y * z := Nat.le_mul_of_pos_left _ (Nat.mul_pos hx hy)
  have hm1 : mul32 (x : Int) (y : Int) = ((x * y : Nat) : Int) := by
    unfold mul32
    rw [← Nat.cast_mul]
    apply wrap32_of_fits <;> omega
  have hm2 : mul32 (mul32 (x : Int) (y : Int)) (z : Int) = ((x * y * z : Nat) : Int) := by
    rw [hm1]
    unfold mul32
    rw [← Nat.cast_mul]
    apply wrap32_of_fits <;> omega
  have hT : tooLarge M x y z = false :=
    tooLarge_within hM (by exact_mod_cast hceil) hm2
  rw [loadFromJson_of_record hjson hparse hw,
    loadVolume_of_fields hw hh hd ho ⟨by omega, by omega⟩ ⟨by omega, by omega⟩
      ⟨by omega, by omega⟩ hdata]
  rw [loadData, hT, hm2, hm1]
  unfold newArray
  rw [if_neg (not_lt.mpr (Nat.cast_nonneg _))]
  have hrs := readSlices_short (x * y) (Nat.mul_pos hx hy) z 0 file
    ((List.range ((x * y * z : Nat) : Int).toNat).map junk)
    (by
      simp only [List.length_map, List.length_range, Int.toNat_ofNat, Nat.zero_add]
      rw [Nat.mul_comm])
    (by
      simp only [List.length_map, List.length_range, Int.toNat_ofNat]
      exact hbig)
    (by
      have : file.length < x * y * z := by exact_mod_cast hshort
      rw [Nat.mul_comm]
      exact this)
  simp only [Nat.cast_zero, Int.toNat_ofNat] at hrs ⊢
  simp only [hrs, Bool.false_eq_true, if_false]
  exact ⟨_, rfl, clear_isEmpty _⟩

theorem loadFromJson_short_data_witness :
    ∃ w, loadFromJson 1 (stubFormat (recordOf (2 : Int) (2 : Int) (2 : Int) "vol"))
        (fun _ => 0) Voxmap.new [("vol.json", []), ("vol.data", [1, 2, 3, 4, 5])] "vol.json"
        = .ok w ∧ w.isEmpty :=
  loadFromJson_short_data 1 (stubFormat (recordOf (2 : Int) (2 : Int) (2 : Int) "vol"))
    (fun _ => 0) Voxmap.new [("vol.json", []), ("vol.data", [1, 2, 3, 4, 5])] "vol.json" "vol"
    [] [1, 2, 3, 4, 5] (recordOf (2 : Int) (2 : Int) (2 : Int) "vol") 2 2 2
    (by decide) rfl (by simp [recordOf, List.lookup]) (by simp [recordOf, List.lookup])
    (by simp [recordOf, List.lookup]) (by simp [recordOf, List.lookup])
    (by decide) (by decide) (by decide) ⟨by decide, by decide⟩ (by decide) (by decide)
    (by decide)

/-! ## `loadFromJson`: a record without a dimension -/

theorem value_touch (o : QJsonObject) (k k1 : String) :
    QJsonObject.value (QJsonObject.touch o k) k1 = QJsonObject.value o k1 := by
  unfold QJsonObject.touch
  split
  · unfold QJsonObject.value
    rw [List.lookup_append]
    cases h : List.lookup k1 o with
    | some x => rfl
    | none =>
      simp only [Option.none_or, Option.getD_none, List.lookup]
      cases k1 == k <;> rfl
  · rfl

theorem toInt_of_noInt {info : QJsonObject} {key : String} (h : NoIntAt info key) :
    (QJsonObject.value info key).toInt = 0 := by
  unfold QJsonObject.value
  cases hl : List.lookup key info with
  | none => rfl
  | some x =>
    cases x with
    | double d =>
      show (if d.den = 1 ∧ -2147483648 ≤ d.num ∧ d.num < 2147483648 then d.num else 0) = 0
      by_cases hc : d.den = 1 ∧ -2147483648 ≤ d.num ∧ d.num < 2147483648
      · exfalso
        apply h d.num
        rw [hl, Rat.coe_int_num_of_den_eq_one hc.1]
      · rw [if_neg hc]
    | null => rfl
    | bool b => rfl
    | string s => rfl
    | compound => rfl

theorem mul32_zero_left (a : Int) : mul32 0 a = 0 := by
  unfold mul32
  rw [Int.zero_mul]
  rfl

theorem mul32_zero_right (a : Int) : mul32 a 0 = 0 := by
  unfold mul32
  rw [Int.mul_zero]
  rfl

theorem loadData_zero_dimension {M : Int} (hM : CeilingFits M) (junk : Nat → Byte)
    (v : Voxmap) (file : List Byte) {X Y Z : Int} (h0 : X = 0 ∨ Y = 0 ∨ Z = 0) :
    loadData M junk v file X Y Z
      = .ok { v with X := X, Y := Y, Z := Z, ystride := X, zstride := mul32 X Y,
                     data := some [] } := by
  have hsz : mul32 (mul32 X Y) Z = 0 := by
    rcases h0 with h | h | h
    · rw [h, mul32_zero_left, mul32_zero_left]
    · rw [h, mul32_zero_right, mul32_zero_left]
    · rw [h, mul32_zero_right]
  have hT : tooLarge M X Y Z = false := tooLarge_of_nonpos hM (by rw [hsz])
  have hn : newArray junk 0 = .ok [] := rfl
  have hr : readSlices (mul32 X Y) Z.toNat 0 file [] = .ok (some []) := by
    rcases h0 with h | h | h
    · rw [h, mul32_zero_left]
      exact readSlices_zero_stride _ _ _ _
    · rw [h, mul32_zero_right]
      exact readSlices_zero_stride _ _ _ _
    · rw [h]
      rfl
  rw [loadData, hT, hsz]
  simp only [hn, hr, Bool.false_eq_true, if_false]

theorem loadFromJson_zero_dimension {M : Int} (hM : CeilingFits M) (fmt : JsonFormat)
    (junk : Nat → Byte) (v : Voxmap) (fs : FileSystem) (jsonfn : String)
    (text file : List Byte) (info : QJsonObject)
    (hjson : fs.lookup jsonfn = some text)
    (hparse : fmt.fromJson (text.take (1000 * 1000)) = ⟨true, info⟩)
    (hne : info.isEmpty = false)
    (hdim : NoIntAt info "width" ∨ NoIntAt info "height" ∨ NoIntAt info "depth")
    (hdata : fs.lookup (dataPath info) = some file) :
    ∃ w, loadFromJson M fmt junk v fs jsonfn = .ok w ∧ w.data = some [] ∧
      w.X = (QJsonObject.value info "width").toInt ∧
      w.Y = (QJsonObject.value info "height").toInt ∧
      w.Z = (QJsonObject.value info "depth").toInt ∧
      (w.X = 0 ∨ w.Y = 0 ∨ w.Z = 0) := by
  have h0 : (QJsonObject.value info "width").toInt = 0 ∨
      (QJsonObject.value info "height").toInt = 0 ∨
      (QJsonObject.value info "depth").toInt = 0 := by
    rcases hdim with h | h | h
    · exact Or.inl (toInt_of_noInt h)
    · exact Or.inr (Or.inl (toInt_of_noInt h))
    · exact Or.inr (Or.inr (toInt_of_noInt h))
  rw [loadFromJson, hjson]
  simp only [hparse, hne, Bool.true_eq_false, Bool.false_eq_true, if_false]
  rw [loadVolume]
  unfold dataPath at hdata
  rw [hdata]
  simp only [value_touch]
  rw [loadData_zero_dimension hM junk _ file h0]
  exact ⟨_, rfl, rfl, rfl, rfl, rfl, h0⟩

theorem loadFromJson_no_data_file (M : Int) (fmt : JsonFormat)
    (junk : Nat → Byte) (v : Voxmap) (fs : FileSystem) (jsonfn : String)
    {text : List Byte} {info : QJsonObject}
    (hjson : fs.lookup jsonfn = some text)
    (hparse : fmt.fromJson (text.take (1000 * 1000)) = ⟨true, info⟩)
    (hne : info.isEmpty = false)
    (hdata : fs.lookup (dataPath info) = none) :
    ∃ w, loadFromJson M fmt junk v fs jsonfn = .ok w ∧ w.isEmpty := by
  rw [loadFromJson, hjson]
  simp only [hparse, hne, Bool.true_eq_false, Bool.false_eq_true, if_false]
  rw [loadVolume]
  unfold dataPath at hdata
  rw [hdata]
  exact ⟨_, rfl, clear_isEmpty _⟩

/-- C6 (as stated, refuted): a record with `height`, `depth` and `outbase` but no
`width`, next to a readable data file, does not leave the volume empty: for every
ceiling constant in `[0, 2048)` the load returns with a non-null buffer. -/
theorem missing_width_not_rejected :
    ¬ ∃ M : Int, CeilingFits M ∧
      ∀ w, loadFromJson M
          (stubFormat [("height", .double 2), ("depth", .double 1), ("outbase", .string "vol")])
          (fun _ => 0) Voxmap.new [("vol.json", []), ("vol.data", [1, 2])] "vol.json" = .ok w →
        w.unloaded := by
  rintro ⟨M, hM, h⟩
  obtain ⟨w, hw, hd, _⟩ := loadFromJson_zero_dimension hM
    (stubFormat [("height", .double 2), ("depth", .double 1), ("outbase", .string "vol")])
    (fun _ => 0) Voxmap.new [("vol.json", []), ("vol.data", [1, 2])] "vol.json"
    [] [1, 2] [("height", .double 2), ("depth", .double 1), ("outbase", .string "vol")]
    (by decide) rfl rfl
    (Or.inl (by intro n; simp [List.lookup])) (by decide)
  have hu := (h w hw).2.2.2
  rw [hd] at hu
  cases hu

/-- C6 (amended): `loadFromJson` does not check the fields of a non-empty record. A
dimension that is missing or not an integer is read as 0; with a ceiling constant in
`[0, 2048)` and a data file that opens, the load returns with a non-null zero-length
buffer, that dimension 0 and the other dimensions as recorded. The data file is the
one named by `outbase`, which is `.data` when `outbase` is missing; when it cannot be
opened the volume is left empty. -/
theorem loadFromJson_unchecked_fields (M : Int) (fmt : JsonFormat) (junk : Nat → Byte)
    (v : Voxmap) (fs : FileSystem) (jsonfn : String) (text : List Byte)
    (info : QJsonObject)
    (hjson : fs.lookup jsonfn = some text)
    (hparse : fmt.fromJson (text.take (1000 * 1000)) = ⟨true, info⟩)
    (hne : info.isEmpty = false) :
    (info.lookup "outbase" = none → dataPath info = ".data") ∧
    (fs.lookup (dataPath info) = none →
      ∃ w, loadFromJson M fmt junk v fs jsonfn = .ok w ∧ w.isEmpty) ∧
    (∀ file, CeilingFits M → fs.lookup (dataPath info) = some file →
      NoIntAt info "width" ∨ NoIntAt info "height" ∨ NoIntAt info "depth" →
      ∃ w, loadFromJson M fmt junk v fs jsonfn = .ok w ∧ w.data = some [] ∧
        w.X = (QJsonObject.value info "width").toInt ∧
        w.Y = (QJsonObject.value info "height").toInt ∧
        w.Z = (QJsonObject.value info "depth").toInt ∧
        (w.X = 0 ∨ w.Y = 0 ∨ w.Z = 0)) := by
  refine ⟨?_, ?_, ?_⟩
  · intro ho
    unfold dataPath QJsonObject.value
    rw [ho]
    rfl
  · intro hdata
    exact loadFromJson_no_data_file M fmt junk v fs jsonfn hjson hparse hne hdata
  · intro file hM hdata hdim
    exact loadFromJson_zero_dimension hM fmt junk v fs jsonfn text file info hjson hparse
      hne hdim hdata

theorem loadFromJson_unchecked_fields_witness :
    ([("height", QJsonValue.double 2), ("depth", .double 1)].lookup "outbase" = none →
      dataPath [("height", .double 2), ("depth", .double 1)] = ".data") ∧
    (List.lookup (dataPath [("height", .double 2), ("depth", .double 1)])
        [("vol.json", ([] : List Byte)), (".data", [1, 2])] = none →
      ∃ w, loadFromJson 1 (stubFormat [("height", .double 2), ("depth", .double 1)])
        (fun _ => 0) Voxmap.new [("vol.json", []), (".data", [1, 2])] "vol.json" = .ok w ∧
        w.isEmpty) ∧
    (∀ file, CeilingFits 1 →
      List.lookup (dataPath [("height", .double 2), ("depth", .double 1)])
        [("vol.json", ([] : List Byte)), (".data", [1, 2])] = some file →
      NoIntAt [("height", .double 2), ("depth", .double 1)] "width" ∨
        NoIntAt [("height", .double 2), ("depth", .double 1)] "height" ∨
        NoIntAt [("height", .double 2), ("depth", .double 1)] "depth" →
      ∃ w, loadFromJson 1 (stubFormat [("height", .double 2), ("depth", .double 1)])
          (fun _ => 0) Voxmap.new [("vol.json", []), (".data", [1, 2])] "vol.json" = .ok w ∧
        w.data = some [] ∧
        w.X = (QJsonObject.value [("height", .double 2), ("depth", .double 1)] "width").toInt ∧
        w.Y = (QJsonObject.value [("height", .double 2), ("depth", .double 1)] "height").toInt ∧
        w.Z = (QJsonObject.value [("height", .double 2), ("depth", .double 1)] "depth").toInt ∧
        (w.X = 0 ∨ w.Y = 0 ∨ w.Z = 0)) :=
  loadFromJson_unchecked_fields 1 (stubFormat [("height", .double 2), ("depth", .double 1)])
    (fun _ => 0) Voxmap.new [("vol.json", []), (".data", [1, 2])] "vol.json" []
    [("height", .double 2), ("depth", .double 1)] (by decide) rfl rfl

/-! ## Round trip: `importDir` then `loadFromJson` -/

theorem copyInto_eq {buf src out : List Byte} {off : Nat} (hsrc : src ≠ [])
    (h : copyInto buf (off : Int) src = .ok out) :
    off + src.length ≤ buf.length ∧
      out = buf.take off ++ src ++ buf.drop (off + src.length) := by
  unfold copyInto at h
  rw [if_neg hsrc] at h
  split at h
  · cases h
  · rename_i hb
    cases h
    exact ⟨by omega, by simp only [Int.toNat_ofNat]⟩

theorem importSlices_fits (X Y : Int) (m : Nat) (hm : 0 < m) (hmul : mul32 X Y = m) :
    ∀ (imgs : List QImage) (z : Nat) (buf out : List Byte),
      z * m ≤ buf.length → buf.length < 2147483648 →
      importSlices X Y (m : Int) imgs (z : Int) buf = .ok (some out) →
      (z + imgs.length) * m ≤ buf.length ∧ out.length = buf.length := by
  intro imgs
  induction imgs with
  | nil =>
    intro z buf out hz _ h
    rw [importSlices] at h
    cases h
    exact ⟨by simpa using hz, rfl⟩
  | cons img rest ih =>
    intro z buf out hz hlen h
    have hoff : mul32 (z : Int) (m : Int) = ((z * m : Nat) : Int) := by
      unfold mul32
      rw [← Nat.cast_mul]
      apply wrap32_of_fits <;> omega
    rw [importSlices] at h
    split at h
    · cases h
    · rw [hmul, hoff, memcpy, if_neg (by omega)] at h
      split at h
      · cases h
      · rename_i buf1 hc
        have hsrc : (List.range ((m : Int)).toNat).map img.bits ≠ [] := by
          intro he
          have := congrArg List.length he
          simp only [List.length_map, List.length_range, Int.toNat_ofNat, List.length_nil] at this
          omega
        obtain ⟨hb, _⟩ := copyInto_eq hsrc hc
        simp only [List.length_map, List.length_range, Int.toNat_ofNat] at hb
        have hl := copyInto_length hc
        have hz1 : (z + 1) * m ≤ buf1.length := by
          rw [hl, Nat.add_mul, Nat.one_mul]
          exact hb
        have h1 : importSlices X Y (m : Int) rest ((z + 1 : Nat) : Int) buf1 = .ok (some out) := by
          rw [Nat.cast_add, Nat.cast_one]
          exact h
        obtain ⟨hfit, hout⟩ := ih (z + 1) buf1 out hz1 (by omega) h1
        refine ⟨?_, by rw [hout, hl]⟩
        rw [hl] at hfit
        rw [List.length_cons]
        have : z + (rest.length + 1) = z + 1 + rest.length := by omega
        rw [this]
        exact hfit

theorem writeSlices_zero_stride (buf : List Byte) :
    ∀ (k : Nat) (z : Int), writeSlices buf 0 k z = .ok [] := by
  intro k
  induction k with
  | zero => intro z; rfl
  | succ k ih =>
    intro z
    rw [writeSlices, slice, if_pos (le_refl _)]
    simp only [ih, List.nil_append]

theorem writeSlices_exact (buf : List Byte) (m : Nat) (hm : 0 < m)
    (hlen : buf.length < 2147483648) :
    ∀ (k z : Nat), (z + k) * m ≤ buf.length →
      writeSlices buf (m : Int) k (z : Int) = .ok ((buf.drop (z * m)).take (k * m)) := by
  intro k
  induction k with
  | zero =>
    intro z _
    rw [writeSlices]
    simp
  | succ k ih =>
    intro z hfit
    have hzm : z * m + m ≤ buf.length := by
      have : (z + 1) * m ≤ (z + (k + 1)) * m := Nat.mul_le_mul_right _ (by omega)
      rw [Nat.add_mul, Nat.one_mul] at this
      omega
    have hoff : mul32 (z : Int) (m : Int) = ((z * m : Nat) : Int) := by
      unfold mul32
      rw [← Nat.cast_mul]
      apply wrap32_of_fits <;> omega
    have hrec := ih (z + 1) (by
      have : z + 1 + k = z + (k + 1) := by omega
      rw [this]; exact hfit)
    rw [Nat.cast_add, Nat.cast_one] at hrec
    rw [writeSlices, hoff, slice, if_neg (by omega), if_neg (by omega)]
    simp only [hrec, Int.toNat_ofNat]
    refine congrArg Except.ok ?_
    have h1 : (z + 1) * m = z * m + m := by rw [Nat.add_mul, Nat.one_mul]
    have h2 : (k + 1) * m = m + k * m := by rw [Nat.add_mul, Nat.one_mul, Nat.add_comm]
    rw [h1, h2, List.take_add, List.drop_drop]

theorem readSlices_exact (m : Nat) (hm : 0 < m) :
    ∀ (k z : Nat) (file buf : List Byte),
      buf.length < 2147483648 → (z + k) * m ≤ buf.length → file.length = k * m →
      readSlices (m : Int) k (z : Int) file buf
        = .ok (some (buf.take (z * m) ++ file ++ buf.drop ((z + k) * m))) := by
  intro k
  induction k with
  | zero =>
    intro z file buf _ _ hfile
    have : file = [] := List.length_eq_zero.mp (by simpa using hfile)
    subst this
    rw [readSlices]
    simp
  | succ k ih =>
    intro z file buf hlen hfit hfile
    have hkm : (k + 1) * m = m + k * m := by rw [Nat.add_mul, Nat.one_mul, Nat.add_comm]
    have hzk : (z + (k + 1)) * m = z * m + m + k * m := by
      rw [Nat.add_mul, hkm, Nat.add_assoc]
    have hzm : z * m + m ≤ buf.length := by omega
    have hoff : mul32 (z : Int) (m : Int) = ((z * m : Nat) : Int) := by
      unfold mul32
      rw [← Nat.cast_mul]
      apply wrap32_of_fits <;> omega
    have hgot : (file.take m).length = m := by
      rw [List.length_take]
      omega
    have hsrc : file.take m ≠ [] := by
      intro he
      rw [he] at hgot
      simp at hgot
      omega
    rw [readSlices, if_neg (by omega)]
    simp only [Int.toNat_ofNat, hoff]
    obtain ⟨out, hout⟩ := copyInto_ok buf (file.take m) ((z * m : Nat) : Int) (by omega)
      (by omega)
    obtain ⟨_, hval⟩ := copyInto_eq hsrc hout
    have hl := copyInto_length hout
    rw [hout]
    simp only [hgot, lt_irrefl, if_false]
    have hrec := ih (z + 1) (file.drop m) out (by omega)
      (by
        rw [hl]
        have : z + 1 + k = z + (k + 1) := by omega
        rw [this]; exact hfit)
      (by rw [List.length_drop]; omega)
    rw [Nat.cast_add, Nat.cast_one] at hrec
    rw [hrec]
    refine congrArg (fun x => Except.ok (some x)) ?_
    have hz1 : (z + 1) * m = z * m + m := by rw [Nat.add_mul, Nat.one_mul]
    have htake : out.take ((z + 1) * m) = buf.take (z * m) ++ file.take m := by
      rw [hval, hz1, List.take_append_eq_append_take]
      simp only [List.length_append, List.length_take, hgot]
      have : min (z * m) buf.length = z * m := by omega
      rw [this, Nat.sub_self, List.take_zero, List.append_nil]
      rw [List.take_of_length_le]
      simp only [List.length_append, List.length_take, hgot]
      omega
    have hdrop : out.drop ((z + 1 + k) * m) = buf.drop ((z + (k + 1)) * m) := by
      have e1 : (z + 1 + k) * m = (z * m + m) + k * m := by
        rw [Nat.add_mul, hz1]
      rw [hval, e1, hzk, hgot]
      rw [List.drop_append_eq_append_drop]
      simp only [List.length_append, List.length_take, hgot]
      have : min (z * m) buf.length = z * m := by omega
      rw [this]
      rw [List.drop_of_length_le (by
        simp only [List.length_append, List.length_take, hgot]
        omega)]
      rw [List.nil_append, List.drop_drop, Nat.add_sub_cancel_left]
    rw [htake, hdrop, List.append_assoc, List.append_assoc, List.append_assoc]
    rw [← List.append_assoc (List.take m file), List.take_append_drop]

theorem importSlices_zero_stride (X Y : Int) (h0 : mul32 X Y = 0) :
    ∀ (imgs : List QImage) (z : Int) (buf out : List Byte),
      importSlices X Y 0 imgs z buf = .ok (some out) → out = buf := by
  intro imgs
  induction imgs with
  | nil =>
    intro z buf out h
    rw [importSlices] at h
    cases h
    rfl
  | cons img rest ih =>
    intro z buf out h
    rw [importSlices] at h
    split at h
    · cases h
    · have hm : memcpy buf (mul32 z 0) img.bits (mul32 X Y) = .ok buf := by
        rw [h0]
        rfl
      rw [hm] at h
      exact ih (z + 1) buf out h

theorem importSlices_negative_stride (X Y n : Int) (hneg : mul32 X Y < 0)
    (img : QImage) (rest : List QImage) (z : Int) (buf out : List Byte) :
    importSlices X Y n (img :: rest) z buf ≠ .ok (some out) := by
  intro h
  rw [importSlices] at h
  split at h
  · cases h
  · rw [memcpy, if_pos hneg] at h
    cases h

theorem newArray_length {junk : Nat → Byte} {n : Int} {buf : List Byte}
    (h : newArray junk n = .ok buf) : 0 ≤ n ∧ buf.length = n.toNat := by
  unfold newArray at h
  split at h
  · cases h
  · cases h
    exact ⟨by omega, by simp⟩

theorem newArray_ok (junk : Nat → Byte) {n : Int} (h : 0 ≤ n) :
    newArray junk n = .ok ((List.range n.toNat).map junk) := by
  unfold newArray
  rw [if_neg (by omega)]

/-- What `importDir` stores and writes is read back by the loop of `loadFromJson`:
after a slice loop that ran to its end, the bytes written to the data file make the
read loop rebuild the same buffer, whatever the fresh array held. -/
theorem slices_round_trip (X Y : Int) (junk junk2 : Nat → Byte) (img : QImage)
    (rest : List QImage) (buf0 out : List Byte)
    (ha : newArray junk (mul32 (mul32 X Y) ((img :: rest).length : Int)) = .ok buf0)
    (hs : importSlices X Y (mul32 X Y) (img :: rest) 0 buf0 = .ok (some out)) :
    writeSlices out (mul32 X Y) ((img :: rest).length : Int).toNat 0 = .ok out ∧
      ∃ b0, newArray junk2 (mul32 (mul32 X Y) ((img :: rest).length : Int)) = .ok b0 ∧
        readSlices (mul32 X Y) ((img :: rest).length : Int).toNat 0 out b0
          = .ok (some out) := by
  rcases lt_trichotomy (mul32 X Y) 0 with hn | hn | hn
  · exact absurd hs (importSlices_negative_stride X Y _ hn img rest 0 buf0 out)
  · rw [hn] at ha hs ⊢
    rw [mul32_zero_left] at ha ⊢
    have hb0 : buf0 = [] := by
      have : newArray junk 0 = .ok [] := rfl
      rw [this] at ha
      cases ha
      rfl
    have hout := importSlices_zero_stride X Y hn _ _ _ _ hs
    rw [hout, hb0]
    exact ⟨writeSlices_zero_stride _ _ _, [], rfl, readSlices_zero_stride _ _ _ _⟩
  · obtain ⟨m, hm⟩ := Int.eq_ofNat_of_zero_le (le_of_lt hn)
    have hmpos : 0 < m := by
      rw [hm] at hn
      exact_mod_cast hn
    obtain ⟨hsz, hlen⟩ := newArray_length ha
    have hlt : buf0.length < 2147483648 := by
      have hlt1 := wrap32_lt (mul32 X Y * ((img :: rest).length : Int))
      have e : mul32 (mul32 X Y) ((img :: rest).length : Int)
          = wrap32 (mul32 X Y * ((img :: rest).length : Int)) := rfl
      rw [e] at hlen hsz
      omega
    rw [hm] at hs
    obtain ⟨hfit, hol⟩ := importSlices_fits X Y m hmpos hm (img :: rest) 0 buf0 out
      (by simp) hlt (by simpa using hs)
    rw [Nat.zero_add] at hfit
    have hexact : mul32 (m : Int) ((img :: rest).length : Int)
        = (((img :: rest).length * m : Nat) : Int) := by
      unfold mul32
      rw [← Nat.cast_mul, Nat.mul_comm]
      apply wrap32_of_fits <;> omega
    rw [hm] at ha hlen ⊢
    rw [hexact] at ha hlen ⊢
    rw [Int.toNat_ofNat] at hlen
    have hw := writeSlices_exact out m hmpos (by omega) (img :: rest).length 0
      (by rw [Nat.zero_add, hol, hlen])
    rw [Nat.zero_mul, List.drop_zero, List.take_of_length_le (by rw [hol, hlen])] at hw
    refine ⟨by simpa using hw, _, newArray_ok junk2 (Nat.cast_nonneg _), ?_⟩
    have hr := readSlices_exact m hmpos (img :: rest).length 0 out
      ((List.range (((img :: rest).length * m : Nat) : Int).toNat).map junk2)
      (by simp only [List.length_map, List.length_range, Int.toNat_ofNat]; omega)
      (by simp only [List.length_map, List.length_range, Int.toNat_ofNat, Nat.zero_add]
          exact le_refl _)
      (by rw [hol, hlen])
    rw [Nat.zero_mul, List.take_zero, List.nil_append, Nat.zero_add,
      List.drop_of_length_le (by
        simp only [List.length_map, List.length_range, Int.toNat_ofNat]
        exact le_refl _), List.append_nil] at hr
    simpa using hr

theorem importInfo_fields (X Y Z : Int) (source outbase importdate : String) :
    (importInfo X Y Z source outbase importdate).lookup "width" = some (.double X) ∧
    (importInfo X Y Z source outbase importdate).lookup "height" = some (.double Y) ∧
    (importInfo X Y Z source outbase importdate).lookup "depth" = some (.double Z) ∧
    (importInfo X Y Z source outbase importdate).lookup "source" = some (.string source) ∧
    (importInfo X Y Z source outbase importdate).lookup "outbase" = some (.string outbase) ∧
    (importInfo X Y Z source outbase importdate).lookup "importdate"
      = some (.string importdate) := by
  simp [importInfo, QJsonObject.set, List.lookup]

theorem json_path_ne_data_path (outbase : String) :
    (outbase ++ ".json" == outbase ++ ".data") = false := by
  rw [beq_eq_false_iff_ne]
  intro h
  have h1 := congrArg String.data h
  rw [String.data_append, String.data_append] at h1
  have h2 := List.append_cancel_left h1
  revert h2
  decide

theorem loadData_of_read {M : Int} {junk : Nat → Byte} {v : Voxmap} {file : List Byte}
    {X Y Z : Int} {b0 out : List Byte} (hT : tooLarge M X Y Z = false)
    (hb0 : newArray junk (mul32 (mul32 X Y) Z) = .ok b0)
    (hrd : readSlices (mul32 X Y) Z.toNat 0 file b0 = .ok (some out)) :
    loadData M junk v file X Y Z
      = .ok { v with X := X, Y := Y, Z := Z, ystride := X, zstride := mul32 X Y,
                     data := some out } := by
  rw [loadData, hT]
  simp only [hb0, hrd, Bool.false_eq_true, if_false]

/-- C3: round trip. When `importDir(source, outbase)` returns with a loaded volume and
could write `outbase.json` and `outbase.data`, the data file holds the buffer byte for
byte, and `loadFromJson(outbase + ".json")` on the files it left (on any volume object,
whatever a fresh array holds) returns with the same `X`, `Y`, `Z`, strides, buffer and
metadata record (width, height, depth, source, outbase, importdate). The JSON text is
assumed to parse back from its first 1000*1000 bytes, and the image sizes and the
slice count to be `int`s. -/
theorem import_load_round_trip (M : Int) (fmt : JsonFormat) (canWrite : String → Bool)
    (junk junk2 : Nat → Byte) (v v2 : Voxmap) (fs : FileSystem) (ifns : List QImage)
    (source outbase importdate : String) (r : Voxmap × FileSystem)
    (himp : importDir M fmt canWrite junk v fs ifns source outbase importdate = .ok r)
    (hsucc : r.1.data ≠ none)
    (hw1 : canWrite (outbase ++ ".json") = true)
    (hw2 : canWrite (outbase ++ ".data") = true)
    (hfmt : fmt.fromJson ((fmt.toJson r.1.meta).take (1000 * 1000)) = ⟨true, r.1.meta⟩)
    (hdims : ∀ img ∈ ifns, img.width < 2147483648 ∧ img.height < 2147483648)
    (hcount : ifns.length < 2147483648) :
    r.2.lookup (outbase ++ ".data") = r.1.data ∧
    r.1.meta = importInfo r.1.X r.1.Y r.1.Z source outbase importdate ∧
    ∃ w, loadFromJson M fmt junk2 v2 r.2 (outbase ++ ".json") = .ok w ∧
      w.X = r.1.X ∧ w.Y = r.1.Y ∧ w.Z = r.1.Z ∧ w.ystride = r.1.ystride ∧
      w.zstride = r.1.zstride ∧ w.data = r.1.data ∧ w.meta = r.1.meta := by
  cases ifns with
  | nil =>
    rw [importDir] at himp
    cases himp
    exact absurd rfl hsucc
  | cons img rest =>
    rw [importDir, importVolume] at himp
    split at himp
    · cases himp
      exact absurd rfl hsucc
    · rename_i hT
      split at himp
      · cases himp
      · rename_i buf0 ha
        split at himp
        · cases himp
        · cases himp
          exact absurd rfl hsucc
        · rename_i out hs
          obtain ⟨hwr, b0, hb0, hrd⟩ :=
            slices_round_trip (img.width : Int) (img.height : Int) junk junk2 img rest buf0 out
              ha hs
          rw [importSave, if_pos hw2, hwr] at himp
          simp only [hw1, if_true] at himp
          cases himp
          obtain ⟨hdw, hdh⟩ := hdims img (List.mem_cons_self _ _)
          have hfields := importInfo_fields (img.width : Int) (img.height : Int)
            ((img :: rest).length : Int) source outbase importdate
          have hjson : List.lookup (outbase ++ ".json")
              ((outbase ++ ".data", out) ::
                (outbase ++ ".json", fmt.toJson (importInfo (img.width : Int)
                  (img.height : Int) ((img :: rest).length : Int) source outbase importdate))
                  :: fs)
              = some (fmt.toJson (importInfo (img.width : Int) (img.height : Int)
                  ((img :: rest).length : Int) source outbase importdate)) := by
            simp [List.lookup, json_path_ne_data_path]
          have hdata : List.lookup (outbase ++ ".data")
              ((outbase ++ ".data", out) ::
                (outbase ++ ".json", fmt.toJson (importInfo (img.width : Int)
                  (img.height : Int) ((img :: rest).length : Int) source outbase importdate))
                  :: fs)
              = some out := by
            simp [List.lookup]
          refine ⟨hdata, rfl, ?_⟩
          rw [loadFromJson_of_record hjson hfmt hfields.1,
            loadVolume_of_fields hfields.1 hfields.2.1 hfields.2.2.1 hfields.2.2.2.2.1
              ⟨by omega, by omega⟩ ⟨by omega, by omega⟩
              ⟨by omega, by simp only [List.length_cons] at hcount ⊢; omega⟩ hdata]
          have hT1 : tooLarge M (img.width : Int) (img.height : Int)
              ((img :: rest).length : Int) = false := by
            simpa using hT
          rw [loadData_of_read hT1 hb0 hrd]
          exact ⟨_, rfl, rfl, rfl, rfl, rfl, rfl, rfl, rfl⟩

theorem import_load_round_trip_witness :
    twoSlicesImported.2.lookup ("vol" ++ ".data") = twoSlicesImported.1.data ∧
    twoSlicesImported.1.meta = importInfo twoSlicesImported.1.X twoSlicesImported.1.Y
      twoSlicesImported.1.Z "dir" "vol" "today" ∧
    ∃ w, loadFromJson 1 (stubFormat (importInfo 2 2 2 "dir" "vol" "today")) (fun _ => 5)
        Voxmap.new twoSlicesImported.2 ("vol" ++ ".json") = .ok w ∧
      w.X = twoSlicesImported.1.X ∧ w.Y = twoSlicesImported.1.Y ∧
      w.Z = twoSlicesImported.1.Z ∧ w.ystride = twoSlicesImported.1.ystride ∧
      w.zstride = twoSlicesImported.1.zstride ∧ w.data = twoSlicesImported.1.data ∧
      w.meta = twoSlicesImported.1.meta :=
  import_load_round_trip 1 (stubFormat (importInfo 2 2 2 "dir" "vol" "today"))
    (fun _ => true) (fun _ => 0) (fun _ => 5) Voxmap.new Voxmap.new [] twoSlices
    "dir" "vol" "today" twoSlicesImported rfl (by simp [twoSlicesImported]) rfl rfl rfl
    (by simp [twoSlices, flatImage]) (by decide)

/-! ## The ball edit -/

theorem mem_intRange (lo hi x : Int) : x ∈ intRange lo hi ↔ lo ≤ x ∧ x ≤ hi := by
  unfold intRange
  simp only [List.mem_map, List.mem_range]
  constructor
  · rintro ⟨i, hi1, rfl⟩
    omega
  · intro h
    refine ⟨(x - lo).toNat, by omega, by omega⟩

theorem nodup_intRange (lo hi : Int) : (intRange lo hi).Nodup := by
  unfold intRange
  refine (List.nodup_range _).map ?_
  intro a b h
  simp only at h
  omega

theorem ballRf_nonneg {idfactor : Int} (h : 0 < idfactor) : 0 ≤ ballRf idfactor := by
  unfold ballRf
  have : (0 : ℚ) < (idfactor : ℚ) := by exact_mod_cast h
  positivity

theorem within_ballR {idfactor : Int} (h : 0 < idfactor) {a : Int} (rest : ℚ)
    (hrest : 0 ≤ rest)
    (hlt : ((a * a : Int) : ℚ) + rest < ballRf idfactor * ballRf idfactor) :
    -ballR idfactor ≤ a ∧ a ≤ ballR idfactor := by
  have hsq : (a : ℚ) ^ 2 < ballRf idfactor ^ 2 := by
    push_cast at hlt
    nlinarith
  obtain ⟨h1, h2⟩ := abs_lt_of_sq_lt_sq' hsq (ballRf_nonneg h)
  have hc : ballRf idfactor ≤ (ballR idfactor : ℚ) := Int.le_ceil _
  unfold ballR at *
  constructor
  · have : ((-⌈ballRf idfactor⌉ : Int) : ℚ) < (a : ℚ) := by
      push_cast
      linarith
    exact le_of_lt (by exact_mod_cast this)
  · have : (a : ℚ) < ((⌈ballRf idfactor⌉ : Int) : ℚ) := by linarith
    exact le_of_lt (by exact_mod_cast this)

theorem mem_ballOffsets {idfactor : Int} (h : 0 < idfactor) (dx dy dz : Int) :
    (dx, dy, dz) ∈ ballOffsets idfactor ↔
      ((dx * dx + dy * dy + dz * dz : Int) : ℚ) < ballRf idfactor * ballRf idfactor := by
  unfold ballOffsets
  simp only [List.mem_flatMap, List.mem_map, List.mem_filter, mem_intRange, inBall,
    decide_eq_true_eq, Prod.mk.injEq]
  constructor
  · rintro ⟨x, _, y, _, z, ⟨_, hz⟩, rfl, rfl, rfl⟩
    exact hz
  · intro hlt
    have hx : -ballR idfactor ≤ dx ∧ dx ≤ ballR idfactor :=
      within_ballR h ((dy * dy + dz * dz : Int) : ℚ)
        (by exact_mod_cast add_nonneg (mul_self_nonneg dy) (mul_self_nonneg dz))
        (by push_cast at hlt ⊢; linarith)
    have hy : -ballR idfactor ≤ dy ∧ dy ≤ ballR idfactor :=
      within_ballR h ((dx * dx + dz * dz : Int) : ℚ)
        (by exact_mod_cast add_nonneg (mul_self_nonneg dx) (mul_self_nonneg dz))
        (by push_cast at hlt ⊢; linarith)
    have hz : -ballR idfactor ≤ dz ∧ dz ≤ ballR idfactor :=
      within_ballR h ((dx * dx + dy * dy : Int) : ℚ)
        (by exact_mod_cast add_nonneg (mul_self_nonneg dx) (mul_self_nonneg dy))
        (by push_cast at hlt ⊢; linarith)
    exact ⟨dx, hx, dy, hy, dz, ⟨hz, hlt⟩, rfl, rfl, rfl⟩

theorem nodup_ballOffsets (idfactor : Int) : (ballOffsets idfactor).Nodup := by
  unfold ballOffsets
  refine List.nodup_flatMap.2 ⟨fun dx _ => ?_, ?_⟩
  · refine List.nodup_flatMap.2 ⟨fun dy _ => ?_, ?_⟩
    · refine ((nodup_intRange _ _).filter _).map ?_
      intro a b hab
      exact (Prod.mk.inj (Prod.mk.inj hab).2).2
    · refine (nodup_intRange _ _).imp ?_
      intro a b hne x h1 h2
      obtain ⟨z1, _, rfl⟩ := List.mem_map.1 h1
      obtain ⟨z2, _, he⟩ := List.mem_map.1 h2
      exact hne (Prod.mk.inj (Prod.mk.inj he).2).1.symm
  · refine (nodup_intRange _ _).imp ?_
    intro a b hne x h1 h2
    obtain ⟨y1, _, hy1⟩ := List.mem_flatMap.1 h1
    obtain ⟨y2, _, hy2⟩ := List.mem_flatMap.1 h2
    obtain ⟨z1, _, rfl⟩ := List.mem_map.1 hy1
    obtain ⟨z2, _, he⟩ := List.mem_map.1 hy2
    exact hne (Prod.mk.inj he).1.symm

/-- C7: for a positive `idfactor`, the offsets at which the ball edit (Draw mode with
`paintid > 0`, and Erase mode with label 0: the same loops) calls `paint` are exactly
the integer triples with `dx² + dy² + dz² < (9/idfactor)²`, each visited once: the cube
`[-ceil(9/idfactor), ceil(9/idfactor)]³` leaves none out and the test lets no other
in. For `idfactor = 1` these are the offsets of squared length below 81. -/
theorem ballOffsets_exact (idfactor : Int) (h : 0 < idfactor) :
    (ballOffsets idfactor).Nodup ∧
    (∀ dx dy dz : Int, (dx, dy, dz) ∈ ballOffsets idfactor ↔
      ((dx ^ 2 + dy ^ 2 + dz ^ 2 : Int) : ℚ) < (9 / (idfactor : ℚ)) ^ 2) ∧
    (idfactor = 1 → ∀ dx dy dz : Int, (dx, dy, dz) ∈ ballOffsets idfactor ↔
      dx ^ 2 + dy ^ 2 + dz ^ 2 < 81) := by
  have hmem : ∀ dx dy dz : Int, (dx, dy, dz) ∈ ballOffsets idfactor ↔
      ((dx ^ 2 + dy ^ 2 + dz ^ 2 : Int) : ℚ) < (9 / (idfactor : ℚ)) ^ 2 := by
    intro dx dy dz
    rw [mem_ballOffsets h]
    unfold ballRf
    simp only [pow_two]
  refine ⟨nodup_ballOffsets idfactor, hmem, ?_⟩
  intro h1 dx dy dz
  rw [hmem, h1]
  have : ((9 : ℚ) / ((1 : Int) : ℚ)) ^ 2 = ((81 : Int) : ℚ) := by norm_num
  rw [this, Int.cast_lt]

theorem ballOffsets_exact_witness :
    (ballOffsets 1).Nodup ∧
    (∀ dx dy dz : Int, (dx, dy, dz) ∈ ballOffsets 1 ↔
      ((dx ^ 2 + dy ^ 2 + dz ^ 2 : Int) : ℚ) < (9 / ((1 : Int) : ℚ)) ^ 2) ∧
    ((1 : Int) = 1 → ∀ dx dy dz : Int, (dx, dy, dz) ∈ ballOffsets 1 ↔
      dx ^ 2 + dy ^ 2 + dz ^ 2 < 81) :=
  ballOffsets_exact 1 (by decide)

/-! ## The row ranges of the render workers -/

theorem rowStart_of_fits {h : Int} (i : Int) (h0 : 0 ≤ h) (h1 : h < 536870912) (i0 : 0 ≤ i)
    (i1 : i ≤ 4) : rowStart h i = h * i / 4 := by
  have hi : 0 ≤ h * i := Int.mul_nonneg h0 i0
  have hle : h * i ≤ h * 4 := Int.mul_le_mul_of_nonneg_left i1 h0
  unfold rowStart mul32
  rw [wrap32_of_fits (by omega) (by omega), Int.tdiv_eq_ediv hi (by decide)]

/-- Why `rows_partitioned` bounds the height: at `h = 2^29`, far above any height a
widget has, the `int` product `h*4` wraps, the last worker's range ends at `-2^29`, and
row `2^29 - 1` is handed to no worker. -/
theorem rows_not_partitioned_at_overflow :
    ¬ RowsPartitioned 536870912 ∧
    ¬ ∃ i : Int, (0 ≤ i ∧ i < 4) ∧
      rowStart 536870912 i ≤ 536870911 ∧ 536870911 < rowStart 536870912 (i + 1) := by
  have h1 : rowStart 536870912 1 = 134217728 := by decide
  have h2 : rowStart 536870912 2 = 268435456 := by decide
  have h3 : rowStart 536870912 3 = 402653184 := by decide
  have h4 : rowStart 536870912 4 = -536870912 := by decide
  constructor
  · intro hp
    have hend := hp.2.1
    rw [h4] at hend
    exact absurd hend (by decide)
  · rintro ⟨i, ⟨i0, i1⟩, _, hb⟩
    have hi : i = 0 ∨ i = 1 ∨ i = 2 ∨ i = 3 := by omega
    rcases hi with rfl | rfl | rfl | rfl
    · have e : rowStart 536870912 (0 + 1) = 134217728 := h1
      rw [e] at hb
      exact absurd hb (by decide)
    · have e : rowStart 536870912 (1 + 1) = 268435456 := h2
      rw [e] at hb
      exact absurd hb (by decide)
    · have e : rowStart 536870912 (2 + 1) = 402653184 := h3
      rw [e] at hb
      exact absurd hb (by decide)
    · have e : rowStart 536870912 (3 + 1) = -536870912 := h4
      rw [e] at hb
      exact absurd hb (by decide)

/-- C9: for every image height `h ≥ 0` whose `int` product `h*4` does not overflow
(`h < 2^29`, which every height `height()/hidpi_` of a widget satisfies) and worker
count 4, the row ranges `[h*i/4, h*(i+1)/4)`, `i = 0..3`, handed to the workers in
`Viewer::rebuild` and `Viewer::rebuildID` are contiguous, pairwise disjoint, and their
union is exactly `[0, h)`: every output row is rendered by exactly one worker. -/
theorem rows_partitioned (h : Int) (h0 : 0 ≤ h) (h1 : h < 536870912) :
    RowsPartitioned h := by
  have e0 := rowStart_of_fits 0 h0 h1 (le_refl 0) (by decide)
  have e1 := rowStart_of_fits 1 h0 h1 (by decide) (by decide)
  have e2 := rowStart_of_fits 2 h0 h1 (by decide) (by decide)
  have e3 := rowStart_of_fits 3 h0 h1 (by decide) (by decide)
  have e4 := rowStart_of_fits 4 h0 h1 (by decide) (by decide)
  have cases4 : ∀ i : Int, 0 ≤ i → i < 4 → i = 0 ∨ i = 1 ∨ i = 2 ∨ i = 3 := by
    intro i a b
    omega
  refine ⟨by rw [e0]; omega, by rw [e4]; omega, ?_, ?_⟩
  · intro i i0 i1
    rcases cases4 i i0 i1 with rfl | rfl | rfl | rfl
    · show rowStart h 0 ≤ rowStart h 1
      rw [e0, e1]; omega
    · show rowStart h 1 ≤ rowStart h 2
      rw [e1, e2]; omega
    · show rowStart h 2 ≤ rowStart h 3
      rw [e2, e3]; omega
    · show rowStart h 3 ≤ rowStart h 4
      rw [e3, e4]; omega
  · intro y y0 y1
    have hs1 : rowStart h (0 + 1) = rowStart h 1 := rfl
    have hs2 : rowStart h (1 + 1) = rowStart h 2 := rfl
    have hs3 : rowStart h (2 + 1) = rowStart h 3 := rfl
    have hs4 : rowStart h (3 + 1) = rowStart h 4 := rfl
    have uniq : ∀ i j : Int, (0 ≤ i ∧ i < 4) ∧ rowStart h i ≤ y ∧ y < rowStart h (i + 1) →
        (0 ≤ j ∧ j < 4) ∧ rowStart h j ≤ y ∧ y < rowStart h (j + 1) → j = i := by
      rintro i j ⟨⟨i0, i1⟩, ha, hb⟩ ⟨⟨j0, j1⟩, hc, hd⟩
      rcases cases4 i i0 i1 with rfl | rfl | rfl | rfl <;>
        rcases cases4 j j0 j1 with rfl | rfl | rfl | rfl <;>
        simp only [hs1, hs2, hs3, hs4, e0, e1, e2, e3, e4] at ha hb hc hd <;> omega
    by_cases c1 : y < rowStart h 1
    · exact ⟨0, ⟨⟨le_refl _, by decide⟩, by rw [e0]; omega, by rw [hs1]; exact c1⟩,
        fun j hj => uniq 0 j ⟨⟨le_refl _, by decide⟩, by rw [e0]; omega, by rw [hs1]; exact c1⟩ hj⟩
    · by_cases c2 : y < rowStart h 2
      · exact ⟨1, ⟨⟨by decide, by decide⟩, by omega, by rw [hs2]; exact c2⟩,
          fun j hj => uniq 1 j ⟨⟨by decide, by decide⟩, by omega, by rw [hs2]; exact c2⟩ hj⟩
      · by_cases c3 : y < rowStart h 3
        · exact ⟨2, ⟨⟨by decide, by decide⟩, by omega, by rw [hs3]; exact c3⟩,
            fun j hj => uniq 2 j ⟨⟨by decide, by decide⟩, by omega, by rw [hs3]; exact c3⟩ hj⟩
        · have c4 : y < rowStart h 4 := by rw [e4]; omega
          exact ⟨3, ⟨⟨by decide, by decide⟩, by omega, by rw [hs4]; exact c4⟩,
            fun j hj => uniq 3 j ⟨⟨by decide, by decide⟩, by omega, by rw [hs4]; exact c4⟩ hj⟩

theorem rows_partitioned_witness : RowsPartitioned 10 :=
  rows_partitioned 10 (by decide) (by decide)

/-! ## The label overlay -/

theorem overlayRow_label_zero (color : Nat → Nat) (buf : Nat → Nat) (x : Nat)
    (hx : buf x = 0) :
    ∀ (k : Nat) (row : Nat → Nat), overlayRow color buf k row x = row x := by
  intro k
  induction k with
  | zero => intro row; rfl
  | succ k ih =>
    intro row
    rw [overlayRow]
    split
    · rename_i hk
      have hne : x ≠ k := by
        intro e
        rw [e] at hx
        exact hk hx
      rw [Function.update_noteq hne, ih]
    · exact ih row

theorem overlayRows_label_zero (color : Nat → Nat) (scan : Int → Nat → Nat) (w : Nat)
    (y : Int) (x : Nat) (hx : scan y x = 0) :
    ∀ (ys : List Int) (img : Pixels), overlayRows color scan w ys img y x = img y x := by
  intro ys
  induction ys with
  | nil => intro img; rfl
  | cons y1 ys ih =>
    intro img
    rw [overlayRows, ih]
    by_cases e : y = y1
    · subst e
      rw [Function.update_same, overlayRow_label_zero color (scan y) x hx]
    · rw [Function.update_noteq e]

/-- C8 (the code at the failing input, and what it keeps): with a label map set and
the overlay shown, a pixel whose label is 0 keeps its value of `im0` everywhere except
at (0,0), where the image `rebuildID` builds holds `0xffffffff` whatever `im0` held:
the write that forces the copy to detach is never undone. -/
theorem rebuildID_label_zero (color : Nat → Nat) (scan : Int → Nat → Nat) (w h : Int)
    (im0 : Pixels) (y : Int) (x : Nat) (hx : scan y x = 0) :
    rebuildID true true color scan w h im0 y x
      = if y = 0 ∧ x = 0 then 4294967295 else im0 y x := by
  unfold rebuildID
  simp only [Bool.and_self, if_true, List.foldl]
  rw [overlayRows_label_zero color scan _ y x hx, overlayRows_label_zero color scan _ y x hx,
    overlayRows_label_zero color scan _ y x hx, overlayRows_label_zero color scan _ y x hx]
  rfl

theorem rebuildID_label_zero_witness :
    rebuildID true true (fun _ => 255) (fun _ _ => 0) 1 1 (fun _ _ => 4278190080) 0 0
        = (if (0 : Int) = 0 ∧ (0 : Nat) = 0 then 4294967295
            else (fun (_ : Int) (_ : Nat) => 4278190080) 0 0) ∧
    rebuildID true true (fun _ => 255) (fun _ _ => 0) 1 1 (fun _ _ => 4278190080) 0 0
        ≠ (fun (_ : Int) (_ : Nat) => 4278190080) 0 0 :=
  ⟨rebuildID_label_zero (fun _ => 255) (fun _ _ => 0) 1 1 (fun _ _ => 4278190080) 0 0 rfl,
    by
      rw [rebuildID_label_zero (fun _ => 255) (fun _ _ => 0) 1 1 (fun _ _ => 4278190080) 0 0
        rfl]
      decide⟩

/-! ## The depth compositing recurrence over the reals -/

theorem depthStep_bounds {B gray s : ℝ} (hg0 : 0 ≤ gray) (hgB : gray ≤ B)
    (hs0 : 0 ≤ s) (hs1 : s ≤ 255) (hsB : s / 255 ≤ B) :
    0 ≤ depthStep Real.sqrt gray s ∧ depthStep Real.sqrt gray s ≤ B := by
  have hh0 : 0 ≤ s / 255 := by positivity
  have hh1 : s / 255 ≤ 1 := by
    rw [div_le_one (by norm_num)]
    exact hs1
  have hw0 : 0 ≤ Real.sqrt (s / 255) := Real.sqrt_nonneg _
  have hw1 : Real.sqrt (s / 255) ≤ 1 := by
    rw [Real.sqrt_le_left (by norm_num)]
    linarith
  unfold depthStep
  constructor
  · have h1 : 0 ≤ s / 255 * Real.sqrt (s / 255) := mul_nonneg hh0 hw0
    have h2 : 0 ≤ gray * (1 - Real.sqrt (s / 255)) := mul_nonneg hg0 (by linarith)
    linarith
  · have h1 : s / 255 * Real.sqrt (s / 255) ≤ B * Real.sqrt (s / 255) :=
      mul_le_mul_of_nonneg_right hsB hw0
    have h2 : gray * (1 - Real.sqrt (s / 255)) ≤ B * (1 - Real.sqrt (s / 255)) :=
      mul_le_mul_of_nonneg_right hgB (by linarith)
    nlinarith

theorem foldl_depthStep_bounds (B : ℝ) :
    ∀ (samples : List ℝ) (gray : ℝ), 0 ≤ gray → gray ≤ B →
      (∀ s ∈ samples, 0 ≤ s ∧ s ≤ 255 ∧ s / 255 ≤ B) →
      0 ≤ samples.foldl (depthStep Real.sqrt) gray ∧
        samples.foldl (depthStep Real.sqrt) gray ≤ B := by
  intro samples
  induction samples with
  | nil => intro gray h0 hB _; exact ⟨h0, hB⟩
  | cons s rest ih =>
    intro gray h0 hB hall
    obtain ⟨hs0, hs1, hsB⟩ := hall s (List.mem_cons_self _ _)
    obtain ⟨h1, h2⟩ := depthStep_bounds h0 hB hs0 hs1 hsB
    rw [List.foldl_cons]
    exact ih _ h1 h2 fun t ht => hall t (List.mem_cons_of_mem _ ht)

theorem maxHere_bounds :
    ∀ (samples : List ℝ), (∀ s ∈ samples, 0 ≤ s ∧ s ≤ 255) →
      0 ≤ maxHere samples ∧ maxHere samples ≤ 1 ∧ ∀ s ∈ samples, s / 255 ≤ maxHere samples := by
  intro samples
  induction samples with
  | nil =>
    intro _
    refine ⟨le_refl _, by unfold maxHere; simp, ?_⟩
    intro s hs
    cases hs
  | cons t rest ih =>
    intro hall
    obtain ⟨i0, i1, i2⟩ := ih fun s hs => hall s (List.mem_cons_of_mem _ hs)
    obtain ⟨ht0, ht1⟩ := hall t (List.mem_cons_self _ _)
    have e : maxHere (t :: rest) = max (t / 255) (maxHere rest) := rfl
    rw [e]
    refine ⟨le_max_of_le_right i0, max_le ?_ i1, ?_⟩
    · rw [div_le_one (by norm_num)]
      exact ht1
    · intro s hs
      rcases List.mem_cons.1 hs with rfl | hs
      · exact le_max_left _ _
      · exact le_max_of_le_right (i2 s hs)

/-- C10: over the reals, for samples `s_0 .. s_{nz-1}` in `[0, 255]` (any `nz ≥ 0`),
the value `gray` of the depth march of `scanLineTrilDepth` satisfies
`0 ≤ gray ≤ max_i (s_i/255) ≤ 1`; hence the index `floor(255.99*gray/alpha)` with
`alpha = 1` lies in `0..255` and fits a byte, with no clamp in the code. -/
theorem depthGray_bounds (samples : List ℝ) (hs : ∀ s ∈ samples, 0 ≤ s ∧ s ≤ 255) :
    0 ≤ depthGray Real.sqrt samples ∧
    depthGray Real.sqrt samples ≤ maxHere samples ∧
    maxHere samples ≤ 1 ∧
    0 ≤ ⌊255.99 * depthGray Real.sqrt samples / 1⌋ ∧
    ⌊255.99 * depthGray Real.sqrt samples / 1⌋ ≤ 255 := by
  obtain ⟨m0, m1, m2⟩ := maxHere_bounds samples hs
  obtain ⟨g0, g1⟩ := foldl_depthStep_bounds (maxHere samples) samples 0 (le_refl _) m0
    fun s h => ⟨(hs s h).1, (hs s h).2, m2 s h⟩
  have g0a : 0 ≤ depthGray Real.sqrt samples := g0
  have g1a : depthGray Real.sqrt samples ≤ maxHere samples := g1
  refine ⟨g0a, g1a, m1, ?_, ?_⟩
  · rw [Int.floor_nonneg]
    have : 0 ≤ 255.99 * depthGray Real.sqrt samples := mul_nonneg (by norm_num) g0a
    simpa using this
  · have hlt : 255.99 * depthGray Real.sqrt samples / 1 < ((256 : Int) : ℝ) := by
      have : depthGray Real.sqrt samples ≤ 1 := le_trans g1a m1
      norm_num
      nlinarith
    have := Int.floor_lt.2 hlt
    omega

theorem depthGray_bounds_witness :
    0 ≤ depthGray Real.sqrt [0, 255, 128] ∧
    depthGray Real.sqrt [0, 255, 128] ≤ maxHere [0, 255, 128] ∧
    maxHere ([0, 255, 128] : List ℝ) ≤ 1 ∧
    0 ≤ ⌊255.99 * depthGray Real.sqrt [0, 255, 128] / 1⌋ ∧
    ⌊255.99 * depthGray Real.sqrt [0, 255, 128] / 1⌋ ≤ 255 :=
  depthGray_bounds [0, 255, 128] (by
    intro s hs
    simp only [List.mem_cons, List.mem_singleton, List.not_mem_nil, or_false] at hs
    rcases hs with rfl | rfl | rfl <;> norm_num)

/-! ## `scanLine`: the fast path against the bounds-checked path -/

theorem truncInt_in_range {q : ℚ} {N : Int} (h0 : 0 ≤ q) (h1 : q < (N : ℚ)) :
    0 ≤ truncInt q ∧ truncInt q < N := by
  unfold truncInt
  rw [if_pos h0]
  exact ⟨Int.floor_nonneg.2 h0, Int.floor_lt.2 h1⟩

theorem index_in_range {X Y Z a b c : Int} (ha0 : 0 ≤ a) (ha : a < X) (hb0 : 0 ≤ b)
    (hb : b < Y) (hc0 : 0 ≤ c) (hc : c < Z) :
    0 ≤ b * X ∧ 0 ≤ c * (X * Y) ∧ a + b * X + c * (X * Y) < X * Y * Z := by
  have hX : 0 < X := lt_of_le_of_lt ha0 ha
  have hY : 0 < Y := lt_of_le_of_lt hb0 hb
  have hXY : 0 < X * Y := Int.mul_pos hX hY
  have h1 : b * X ≤ (Y - 1) * X := Int.mul_le_mul_of_nonneg_right (by omega) (le_of_lt hX)
  have h2 : c * (X * Y) ≤ (Z - 1) * (X * Y) :=
    Int.mul_le_mul_of_nonneg_right (by omega) (le_of_lt hXY)
  refine ⟨Int.mul_nonneg hb0 (le_of_lt hX), Int.mul_nonneg hc0 (le_of_lt hXY), ?_⟩
  have e1 : (Y - 1) * X = X * Y - X := by ring
  have e2 : (Z - 1) * (X * Y) = X * Y * Z - X * Y := by ring
  rw [e1] at h1
  rw [e2] at h2
  omega

theorem inBox_iff (v : Voxmap) (p : Point3) :
    v.inBox p = true ↔
      0 ≤ p.x ∧ 0 ≤ p.y ∧ 0 ≤ p.z ∧ p.x < v.X ∧ p.y < v.Y ∧ p.z < v.Z := by
  unfold Voxmap.inBox
  rw [decide_eq_true_iff]

theorem read_in_box (v : Voxmap) (buf : List Byte) (hdata : v.data = some buf)
    (hlen : (buf.length : Int) = v.X * v.Y * v.Z) (hint : v.X * v.Y * v.Z < 2147483648)
    (hys : v.ystride = v.X) (hzs : v.zstride = v.X * v.Y) (p : Point3)
    (hp : v.inBox p = true) :
    (0 ≤ v.fastIndex p.x p.y p.z ∧ v.fastIndex p.x p.y p.z < v.X * v.Y * v.Z) ∧
    v.pixelAt p.x p.y p.z = v.readData (v.fastIndex p.x p.y p.z) ∧
    ∃ b, v.readData (v.fastIndex p.x p.y p.z) = .ok b := by
  obtain ⟨hx0, hy0, hz0, hx1, hy1, hz1⟩ := (inBox_iff v p).1 hp
  obtain ⟨a0, a1⟩ := truncInt_in_range hx0 hx1
  obtain ⟨b0, b1⟩ := truncInt_in_range hy0 hy1
  obtain ⟨c0, c1⟩ := truncInt_in_range hz0 hz1
  obtain ⟨i1, i2, i3⟩ := index_in_range a0 a1 b0 b1 c0 c1
  have hidx : v.fastIndex p.x p.y p.z
      = truncInt p.x + truncInt p.y * v.X + truncInt p.z * (v.X * v.Y) := by
    unfold Voxmap.fastIndex add32 mul32
    rw [hys, hzs]
    rw [wrap32_of_fits (n := truncInt p.y * v.X) (by omega) (by omega),
      wrap32_of_fits (n := truncInt p.z * (v.X * v.Y)) (by omega) (by omega),
      wrap32_of_fits (n := truncInt p.x + truncInt p.y * v.X) (by omega) (by omega),
      wrap32_of_fits (by omega) (by omega)]
  rw [hidx]
  refine ⟨⟨by omega, i3⟩, ?_, ?_⟩
  · unfold Voxmap.pixelAt
    rw [if_pos ⟨a0, a1, b0, b1, c0, c1⟩]
  · unfold Voxmap.readData
    rw [hdata]
    simp only
    rw [if_pos ⟨by omega, by omega⟩]
    exact ⟨_, rfl⟩

theorem between_ends {a δ N : ℚ} {k : Nat} (h0 : 0 ≤ a) (h1 : a < N)
    (e0 : 0 ≤ a + ((k : ℚ) + 1) * δ) (e1 : a + ((k : ℚ) + 1) * δ < N) :
    0 ≤ a + δ ∧ a + δ < N := by
  have hk : (0 : ℚ) ≤ (k : ℚ) := Nat.cast_nonneg k
  rcases le_total 0 δ with hd | hd
  · have : 0 ≤ (k : ℚ) * δ := mul_nonneg hk hd
    constructor <;> nlinarith
  · have : (k : ℚ) * δ ≤ 0 := mul_nonpos_of_nonneg_of_nonpos hk hd
    constructor <;> nlinarith

theorem scanFast_eq_scanChecked (v : Voxmap) (buf : List Byte) (hdata : v.data = some buf)
    (hlen : (buf.length : Int) = v.X * v.Y * v.Z) (hint : v.X * v.Y * v.Z < 2147483648)
    (hys : v.ystride = v.X) (hzs : v.zstride = v.X * v.Y) (lut : Byte → Byte)
    (d : Point3) :
    ∀ (k : Nat) (p : Point3), v.inBox p = true →
      v.inBox ⟨p.x + (k : ℚ) * d.x, p.y + (k : ℚ) * d.y, p.z + (k : ℚ) * d.z⟩ = true →
      v.scanFast lut d (k + 1) p = v.scanChecked lut d (k + 1) p ∧
      (∃ out, v.scanFast lut d (k + 1) p = .ok out ∧ out.length = k + 1) ∧
      ∀ j : Nat, j ≤ k →
        0 ≤ v.fastIndex (p.x + (j : ℚ) * d.x) (p.y + (j : ℚ) * d.y) (p.z + (j : ℚ) * d.z) ∧
        v.fastIndex (p.x + (j : ℚ) * d.x) (p.y + (j : ℚ) * d.y) (p.z + (j : ℚ) * d.z)
          < v.X * v.Y * v.Z := by
  intro k
  induction k with
  | zero =>
    intro p hp _
    obtain ⟨hi, hpa, b, hb⟩ := read_in_box v buf hdata hlen hint hys hzs p hp
    refine ⟨?_, ?_, ?_⟩
    · rw [Voxmap.scanFast, Voxmap.scanChecked, hpa, hb]
      rfl
    · rw [Voxmap.scanFast, hb]
      exact ⟨[lut b], rfl, rfl⟩
    · intro j hj
      have hj0 : j = 0 := Nat.le_zero.1 hj
      subst hj0
      simp only [Nat.cast_zero, zero_mul, add_zero]
      exact hi
  | succ k ih =>
    intro p hp hend
    obtain ⟨hi, hpa, b, hb⟩ := read_in_box v buf hdata hlen hint hys hzs p hp
    obtain ⟨px0, py0, pz0, px1, py1, pz1⟩ := (inBox_iff v p).1 hp
    obtain ⟨ex0, ey0, ez0, ex1, ey1, ez1⟩ := (inBox_iff v _).1 hend
    simp only [Nat.cast_add, Nat.cast_one] at ex0 ey0 ez0 ex1 ey1 ez1
    obtain ⟨qx0, qx1⟩ := between_ends px0 px1 ex0 ex1
    obtain ⟨qy0, qy1⟩ := between_ends py0 py1 ey0 ey1
    obtain ⟨qz0, qz1⟩ := between_ends pz0 pz1 ez0 ez1
    have hq : v.inBox ⟨p.x + d.x, p.y + d.y, p.z + d.z⟩ = true :=
      (inBox_iff v _).2 ⟨qx0, qy0, qz0, qx1, qy1, qz1⟩
    have hqend : v.inBox ⟨p.x + d.x + (k : ℚ) * d.x, p.y + d.y + (k : ℚ) * d.y,
        p.z + d.z + (k : ℚ) * d.z⟩ = true := by
      refine (inBox_iff v _).2 ⟨?_, ?_, ?_, ?_, ?_, ?_⟩ <;> simp only <;> linarith
    obtain ⟨heq, ⟨out, hout, hol⟩, hidx⟩ := ih ⟨p.x + d.x, p.y + d.y, p.z + d.z⟩ hq hqend
    refine ⟨?_, ?_, ?_⟩
    · rw [Voxmap.scanFast, Voxmap.scanChecked, hpa, hb]
      simp only
      rw [heq]
    · rw [Voxmap.scanFast, hb]
      simp only
      rw [hout]
      exact ⟨lut b :: out, rfl, by rw [List.length_cons, hol]⟩
    · intro j hj
      cases j with
      | zero =>
        simp only [Nat.cast_zero, zero_mul, add_zero]
        exact hi
      | succ j =>
        have h := hidx j (by omega)
        simp only at h
        have e1 : p.x + ((j + 1 : Nat) : ℚ) * d.x = p.x + d.x + (j : ℚ) * d.x := by
          push_cast; ring
        have e2 : p.y + ((j + 1 : Nat) : ℚ) * d.y = p.y + d.y + (j : ℚ) * d.y := by
          push_cast; ring
        have e3 : p.z + ((j + 1 : Nat) : ℚ) * d.z = p.z + d.z + (j : ℚ) * d.z := by
          push_cast; ring
        rw [e1, e2, e3]
        exact h

/-- C11: over exact arithmetic, for a volume whose buffer holds `X*Y*Z` bytes (an `int`
count, as `new uint8_t[X*Y*Z]` takes one) with `ystride = X` and `zstride = X*Y`, every
row `y`, depth `z` and `nx ≥ 1`: when the fast-path test of `scanLine` holds at both end
points, the unchecked index `int(x0)+int(y0)*X+int(z0)*X*Y` lies in `[0, X*Y*Z)` at every
column `ix` of `0..nx-1`, and `scanLine` (which takes the fast path) writes exactly the
`nx` bytes the bounds-checked loop `lut[pixelAt(x0,y0,z0)]` writes. -/
theorem scanLine_fast_path (v : Voxmap) (buf : List Byte) (t : Transform3)
    (y z nx : Int) (lut : Byte → Byte)
    (hdata : v.data = some buf)
    (hlen : (buf.length : Int) = v.X * v.Y * v.Z) (hint : v.X * v.Y * v.Z < 2147483648)
    (hys : v.ystride = v.X) (hzs : v.zstride = v.X * v.Y) (hnx : 1 ≤ nx)
    (hfast : (v.inBox (samplePoint t 0 y z) && v.inBox (samplePoint t (nx - 1) y z)) = true) :
    (∀ ix : Int, 0 ≤ ix → ix < nx →
      0 ≤ v.fastIndex ((samplePoint t 0 y z).x + (ix : ℚ) * (columnStep t).x)
          ((samplePoint t 0 y z).y + (ix : ℚ) * (columnStep t).y)
          ((samplePoint t 0 y z).z + (ix : ℚ) * (columnStep t).z) ∧
      v.fastIndex ((samplePoint t 0 y z).x + (ix : ℚ) * (columnStep t).x)
          ((samplePoint t 0 y z).y + (ix : ℚ) * (columnStep t).y)
          ((samplePoint t 0 y z).z + (ix : ℚ) * (columnStep t).z) < v.X * v.Y * v.Z) ∧
    v.scanLine t y z nx lut
      = v.scanChecked lut (columnStep t) nx.toNat (samplePoint t 0 y z) ∧
    ∃ out, v.scanLine t y z nx lut = .ok out ∧ (out.length : Int) = nx := by
  obtain ⟨hp0, hp1⟩ := Bool.and_eq_true_iff.1 hfast
  obtain ⟨k, hk⟩ : ∃ k : Nat, (k : Int) = nx - 1 := ⟨(nx - 1).toNat, by omega⟩
  have hkq : (k : ℚ) = ((nx - 1 : Int) : ℚ) := by exact_mod_cast hk
  have hnk : nx.toNat = k + 1 := by omega
  have hend : (⟨(samplePoint t 0 y z).x + (k : ℚ) * (columnStep t).x,
      (samplePoint t 0 y z).y + (k : ℚ) * (columnStep t).y,
      (samplePoint t 0 y z).z + (k : ℚ) * (columnStep t).z⟩ : Point3)
      = samplePoint t (nx - 1) y z := by
    rw [hkq]
    unfold samplePoint columnStep Transform3.apply
    simp only [Point3.mk.injEq]
    refine ⟨?_, ?_, ?_⟩ <;> push_cast <;> ring
  obtain ⟨heq, ⟨out, hout, hol⟩, hidx⟩ :=
    scanFast_eq_scanChecked v buf hdata hlen hint hys hzs lut (columnStep t) k
      (samplePoint t 0 y z) hp0 (by rw [hend]; exact hp1)
  have hsl : v.scanLine t y z nx lut
      = v.scanFast lut (columnStep t) (k + 1) (samplePoint t 0 y z) := by
    unfold Voxmap.scanLine
    rw [if_pos hfast, hnk]
  refine ⟨?_, ?_, ?_⟩
  · intro ix h0 h1
    obtain ⟨j, hj⟩ : ∃ j : Nat, (j : Int) = ix := ⟨ix.toNat, by omega⟩
    have hjq : (ix : ℚ) = (j : ℚ) := by exact_mod_cast hj.symm
    rw [hjq]
    exact hidx j (by omega)
  · rw [hsl, hnk]
    exact heq
  · rw [hsl]
    exact ⟨out, hout, by omega⟩

theorem scanLine_fast_path_witness :
    (∀ ix : Int, 0 ≤ ix → ix < 2 →
      0 ≤ twoSlicesImported.1.fastIndex
          ((samplePoint idTransform 0 0 0).x + (ix : ℚ) * (columnStep idTransform).x)
          ((samplePoint idTransform 0 0 0).y + (ix : ℚ) * (columnStep idTransform).y)
          ((samplePoint idTransform 0 0 0).z + (ix : ℚ) * (columnStep idTransform).z) ∧
      twoSlicesImported.1.fastIndex
          ((samplePoint idTransform 0 0 0).x + (ix : ℚ) * (columnStep idTransform).x)
          ((samplePoint idTransform 0 0 0).y + (ix : ℚ) * (columnStep idTransform).y)
          ((samplePoint idTransform 0 0 0).z + (ix : ℚ) * (columnStep idTransform).z)
        < twoSlicesImported.1.X * twoSlicesImported.1.Y * twoSlicesImported.1.Z) ∧
    twoSlicesImported.1.scanLine idTransform 0 0 2 id
      = twoSlicesImported.1.scanChecked id (columnStep idTransform) (2 : Int).toNat
          (samplePoint idTransform 0 0 0) ∧
    ∃ out, twoSlicesImported.1.scanLine idTransform 0 0 2 id = .ok out ∧
      (out.length : Int) = 2 :=
  scanLine_fast_path twoSlicesImported.1 [7, 7, 7, 7, 9, 9, 9, 9] idTransform 0 0 2 id
    rfl (by decide) (by decide) rfl rfl (by decide)
    (by
      simp [Voxmap.inBox, samplePoint, Transform3.apply, idTransform, twoSlicesImported]
      norm_num)

end Gvox
